import Mathlib

/-!
Verification of the OpenAPI documentation generator
(`scripts/generate_api_docs.py`, class `APIDocumentationGenerator`).

The Python code manipulates JSON-like nested dictionaries.  We embed those
values as the inductive type `Json` below, with objects as association
lists in insertion order (CPython dicts preserve insertion order, and the
generator relies on that order only for deterministic output).  Python
dictionary assignment `d[k] = v` is embedded as `JDict.set` (replace the
value in place if the key is present, append otherwise), `k in d` as
`JDict.hasKey`, and `d.get(k)` / `d.get(k, default)` as `JDict.get` plus
`Option.getD`.  Fallible code paths (places where CPython would raise an
exception for the input at hand) are embedded with `Except String`.
-/

inductive Json where
  | null : Json
  | bool (b : Bool) : Json
  | num (q : ℚ) : Json
  | str (s : String) : Json
  | arr (items : List Json) : Json
  | obj (entries : List (String × Json)) : Json

/-- A Python dict with string keys, in insertion order. -/
abbrev JDict := List (String × Json)

namespace JDict

/-- Embedding of `d.get(k)` (also of `d[k]` when the caller established the
key is present): the value at the first matching key. -/
def get (d : JDict) (k : String) : Option Json :=
  match d with
  | [] => none
  | (k', v) :: rest => if k' = k then some v else get rest k

/-- Embedding of `k in d`. -/
def hasKey (d : JDict) (k : String) : Bool :=
  (d.get k).isSome

/-- Embedding of Python dict assignment `d[k] = v`: overwrite in place if
the key exists (keeping its position), else append at the end. -/
def set (d : JDict) (k : String) (v : Json) : JDict :=
  match d with
  | [] => [(k, v)]
  | (k', v') :: rest => if k' = k then (k, v) :: rest else (k', v') :: set rest k v

@[simp] theorem get_set_self (d : JDict) (k : String) (v : Json) :
    (d.set k v).get k = some v := by
  induction d with
  | nil => simp [set, get]
  | cons hd tl ih =>
    obtain ⟨k', v'⟩ := hd
    by_cases h : k' = k <;> simp [set, get, h, ih]

theorem get_set_ne (d : JDict) {k k' : String} (v : Json) (h : k' ≠ k) :
    (d.set k v).get k' = d.get k' := by
  induction d with
  | nil => simp [set, get, Ne.symm h]
  | cons hd tl ih =>
    obtain ⟨k'', v''⟩ := hd
    by_cases h2 : k'' = k
    · subst h2
      simp [set, get, Ne.symm h]
    · simp [set, get, h2, ih]

/-- Writing back a value that is already stored leaves the dict unchanged. -/
theorem set_self {d : JDict} {k : String} {v : Json} (h : d.get k = some v) :
    d.set k v = d := by
  induction d with
  | nil => simp [get] at h
  | cons hd tl ih =>
    obtain ⟨k', v'⟩ := hd
    by_cases h2 : k' = k
    · subst h2
      simp [get] at h
      simp [set, h]
    · simp [get, h2] at h
      simp [set, h2, ih h]

theorem hasKey_set_self (d : JDict) (k : String) (v : Json) :
    (d.set k v).hasKey k = true := by
  simp [hasKey]

theorem hasKey_set_ne (d : JDict) {k k' : String} (v : Json) (h : k' ≠ k) :
    (d.set k v).hasKey k' = d.hasKey k' := by
  simp [hasKey, get_set_ne d v h]

theorem get_of_hasKey {d : JDict} {k : String} (h : d.hasKey k = true) :
    ∃ v, d.get k = some v := by
  simpa [hasKey, Option.isSome_iff_exists] using h

end JDict

/-! ### Python string primitives used by the generator -/

/-- Embedding of the Python substring test `needle in hay`. -/
def pyIn (needle hay : String) : Bool :=
  hay.toList.tails.any fun t => needle.toList.isPrefixOf t

/-- Embedding of Python `s.lower()` (ASCII case mapping, which covers
every string the generator lowercases). -/
def pyLower (s : String) : String :=
  ⟨s.toList.map Char.toLower⟩

/-- Embedding of Python `s.endswith(t)`. -/
def pyEndsWith (s t : String) : Bool :=
  t.toList.isSuffixOf s.toList

/-- Embedding of Python `s.startswith(t)`. -/
def pyStartsWith (s t : String) : Bool :=
  t.toList.isPrefixOf s.toList

/-- Helper for `pySplitChar`: accumulate the current field (reversed). -/
def pySplitCharAux (c : Char) : List Char → List Char → List String
  | [], acc => [⟨acc.reverse⟩]
  | x :: xs, acc =>
    if x = c then ⟨acc.reverse⟩ :: pySplitCharAux c xs []
    else pySplitCharAux c xs (x :: acc)

/-- Embedding of Python `s.split(c)` for a one-character separator (the
generator only splits on a single `'/'` or `'\n'`): every occurrence of
the separator delimits a field, empty fields included, and the result is
never the empty list (`''.split(c) == ['']`). -/
def pySplitChar (s : String) (c : Char) : List String :=
  pySplitCharAux c s.toList []

/-- Embedding of Python `s.strip(c)` for a single strip character:
remove all leading and trailing occurrences of `c`. -/
def pyStrip (s : String) (c : Char) : String :=
  ⟨((s.toList.dropWhile (· = c)).reverse.dropWhile (· = c)).reverse⟩

/-- Helper for `pyTitle`: walk the characters remembering whether the
previous character was alphabetic (cased). -/
def pyTitleAux : List Char → Bool → List Char
  | [], _ => []
  | c :: cs, prevCased =>
    (if c.isAlpha then (if prevCased then c.toLower else c.toUpper) else c)
      :: pyTitleAux cs c.isAlpha

/-- Embedding of Python `s.title()` (restricted to ASCII case mapping):
each alphabetic run starts uppercase, the rest of the run is lowercased. -/
def pyTitle (s : String) : String :=
  ⟨pyTitleAux s.toList false⟩

/-! ### `detect_framework` (generate_api_docs.py lines 29-64)

The method reads up to three dependency manifest files and then scans the
Python files of the project.  We abstract the filesystem: a file that
exists is a `FileRead`, which is either the text `read_text` returned or
the exception it raised (`.error ()` — an `OSError` or a
`UnicodeDecodeError`).  The three manifest slots are `Option FileRead`
(`none` when `req_file.exists()` is false), the `rglob` result is a list
of `FileRead`.  Note the manifest loop has no `try`/`except`: a raising
`read_text` there propagates out of the method, while the source-file
loop catches everything and continues. -/

abbrev FileRead := Except Unit String

/-- The manifest branch of `detect_framework`: the `if`/`elif` chain run on
`content.lower()` of a manifest file. -/
def manifestMatch (content : String) : Option String :=
  let c := pyLower content
  if pyIn "fastapi" c then some "fastapi"
  else if pyIn "flask-restx" c then some "flask-restx"
  else if pyIn "djangorestframework" c then some "django-drf"
  else if pyIn "flask" c then some "flask"
  else none

/-- The source-file branch of `detect_framework`: the `if`/`elif` chain of
import-statement substring tests (no lowercasing here). -/
def pyFileMatch (content : String) : Option String :=
  if pyIn "from fastapi import" content || pyIn "import fastapi" content then
    some "fastapi"
  else if pyIn "from flask_restx import" content then some "flask-restx"
  else if pyIn "from rest_framework" content then some "django-drf"
  else if pyIn "from flask import" content then some "flask"
  else none

/-- Second loop of `detect_framework` (over `self.project_root.rglob("*.py")`):
read errors are swallowed by the bare `except: continue`. -/
def detectFromPyFiles : List FileRead → Except Unit String
  | [] => .ok "unknown"
  | .error _ :: rest => detectFromPyFiles rest
  | .ok content :: rest =>
    match pyFileMatch content with
    | some fw => .ok fw
    | none => detectFromPyFiles rest

/-- Embedding of `detect_framework`.  `manifests` are the three
`requirements_files` slots in order; `pyFiles` the `rglob` results.  An
existing manifest whose `read_text` raises propagates the exception
(there is no `try` around that call in the source). -/
def detect_framework (manifests : List (Option FileRead)) (pyFiles : List FileRead) :
    Except Unit String :=
  match manifests with
  | [] => detectFromPyFiles pyFiles
  | none :: rest => detect_framework rest pyFiles
  | some (.error e) :: _ => .error e
  | some (.ok content) :: rest =>
    match manifestMatch content with
    | some fw => .ok fw
    | none => detect_framework rest pyFiles

/-! ### `_generate_tags_from_paths` (lines 416-428) -/

/-- Lexicographic (code-point) comparison of character lists, the order
Python uses to compare strings. -/
def strLeAux : List Char → List Char → Bool
  | [], _ => true
  | _ :: _, [] => false
  | a :: as, b :: bs =>
    if a < b then true
    else if a = b then strLeAux as bs
    else false

/-- Embedding of the Python string order `a <= b`. -/
def pyStrLe (a b : String) : Bool :=
  strLeAux a.toList b.toList

/-- Insert into a sorted list of strings, keeping order. -/
def insertSorted (x : String) : List String → List String
  | [] => [x]
  | y :: ys => if pyStrLe x y then x :: y :: ys else y :: insertSorted x ys

/-- Embedding of Python `sorted` on a list of strings.  CPython uses a
stable mergesort; on the duplicate-free tag lists the generator sorts,
any sorting algorithm produces the same list, so we model it with
insertion sort. -/
def pySorted (l : List String) : List String :=
  l.foldr insertSorted []

/-- Insertion into the Python `set` accumulating tags.  The iteration order
of a Python set is unspecified; `sorted` later normalises it, so we model
the set as a duplicate-free list in first-insertion order. -/
def tagSetInsert (tags : List String) (t : String) : List String :=
  if t ∈ tags then tags else tags ++ [t]

/-- The per-path part of the loop body of `_generate_tags_from_paths`
(lines 421-426): `parts = path.strip('/').split('/')`; `None` when
`parts[0]` is falsy; otherwise the tag is `parts[1] if parts[0] == 'api'
and len(parts) > 1 else parts[0]`. -/
def pathTag (path : String) : Option String :=
  match pySplitChar (pyStrip path '/') '/' with
  | [] => none
  | p0 :: rest =>
    if p0 = "" then none
    else
      some (match rest with
        | p1 :: _ => if p0 = "api" then p1 else p0
        | [] => p0)

/-- The accumulation loop of `_generate_tags_from_paths` over the path
keys. -/
def collectTags (paths : List String) : List String :=
  paths.foldl
    (fun tags path =>
      match pathTag path with
      | some tag => tagSetInsert tags tag
      | none => tags)
    []

/-- Embedding of `_generate_tags_from_paths`: the sorted tag set, each tag
rendered as the dict `{'name': tag, 'description': f'{tag.title()} operations'}`. -/
def generate_tags_from_paths (paths : JDict) : List Json :=
  (pySorted (collectTags (paths.map Prod.fst))).map
    (fun tag => Json.obj
      [("name", Json.str tag),
       ("description", Json.str (pyTitle tag ++ " operations"))])

/-! ### `_get_base_spec` (lines 592-606) -/

/-- Embedding of `_get_base_spec`: the fixed base OpenAPI skeleton.  Note
that `components` carries a `securitySchemes` key bound to an empty dict. -/
def get_base_spec : JDict :=
  [("openapi", Json.str "3.0.0"),
   ("info", Json.obj
     [("title", Json.str "API Documentation"),
      ("version", Json.str "1.0.0"),
      ("description", Json.str "Comprehensive API documentation generated automatically")]),
   ("paths", Json.obj []),
   ("components", Json.obj
     [("schemas", Json.obj []),
      ("securitySchemes", Json.obj [])])]

/-! ### Routes and `_add_route_to_spec` (lines 233-350)

`_extract_flask_routes` appends dicts of the shape
`{'path': .., 'methods': .., 'function': .., 'docstring': ..}` (lines
267-272), where the value under `'docstring'` is the result of
`_extract_docstring` — a string or `None` (line 310).  The `'docstring'`
key is therefore always present.  We embed such a dict as the `Route`
structure; `docstring = none` is Python `None`. -/

structure Route where
  path : String
  methods : List String
  function : String
  docstring : Option String

/-- The fixed `'responses'` value built in `_add_route_to_spec`. -/
def defaultRouteResponses : Json :=
  Json.obj [("200", Json.obj
    [("description", Json.str "Successful response"),
     ("content", Json.obj
       [("application/json", Json.obj
         [("schema", Json.obj [("type", Json.str "object")])])])])]

/-- The fixed `'requestBody'` value attached for post/put/patch. -/
def defaultRouteRequestBody : Json :=
  Json.obj [("content", Json.obj
    [("application/json", Json.obj
      [("schema", Json.obj [("type", Json.str "object")])])])]

/-- The per-method operation dict built inside the loop of
`_add_route_to_spec` (lines 319-348).  `route.get('docstring', f'{method}
{path}')` returns the stored value because the key is always present (see
above), so when the docstring is `None` the fallback string never fires
and `.split('\n')` raises `AttributeError` on `None`. -/
def buildRouteOperation (route : Route) (method : String) : Except String JDict := do
  let methodLower := pyLower method
  let summary ← match route.docstring with
    | some d => pure ((pySplitChar d '\n').headD "")
    | none => Except.error "AttributeError: NoneType object has no attribute split"
  let operation : JDict :=
    [("summary", Json.str summary),
     ("operationId", Json.str (methodLower ++ "_" ++ route.function)),
     ("responses", defaultRouteResponses)]
  -- `if route.get('docstring'):` — truthy only for a present, non-empty string
  let operation := match route.docstring with
    | some d => if d ≠ "" then operation.set "description" (Json.str d) else operation
    | none => operation
  let operation :=
    if methodLower ∈ ["post", "put", "patch"] then
      operation.set "requestBody" defaultRouteRequestBody
    else operation
  pure operation

/-- Embedding of `_add_route_to_spec` (lines 312-350): ensure the path
entry exists in `spec['paths']`, then insert one operation per declared
method under the lowercased method key. -/
def add_route_to_spec (spec : JDict) (route : Route) : Except String JDict := do
  let pathsVal ← match spec.get "paths" with
    | some v => pure v
    | none => Except.error "KeyError: paths"
  let paths ← match pathsVal with
    | Json.obj o => pure o
    | _ => Except.error "TypeError: paths is not a dict"
  let paths :=
    if JDict.hasKey paths route.path then paths
    else JDict.set paths route.path (Json.obj [])
  let paths ← route.methods.foldlM
    (fun (ps : JDict) method => do
      let op ← buildRouteOperation route method
      let entry ← match ps.get route.path with
        | some (Json.obj e) => pure e
        | some _ => Except.error "TypeError: path entry is not a dict"
        | none => Except.error "KeyError: path"
      pure (ps.set route.path (Json.obj (JDict.set entry (pyLower method) (Json.obj op)))))
    paths
  pure (spec.set "paths" (Json.obj paths))

/-! ### Example synthesis (`_create_example_value`, lines 526-590, and
`_create_example_from_schema`, lines 498-512)

The two Python methods are mutually recursive through nested schemas.  We
embed them with an explicit fuel argument so that the recursion is
structural (and hence computable by the kernel); the public wrappers below
supply `2 * jdictWeight schema + 4` fuel, which the recursion never
exhausts: every call consumes one unit of fuel, and along any call path
the schema argument loses structural weight at least every second call. -/

mutual

/-- Executable structural weight of a `Json` value. -/
def jsonWeight : Json → Nat
  | .null => 1
  | .bool _ => 1
  | .num _ => 1
  | .str _ => 1
  | .arr items => 1 + jsonListWeight items
  | .obj entries => 1 + jdictWeight entries

/-- Weight of a list of `Json` values. -/
def jsonListWeight : List Json → Nat
  | [] => 1
  | j :: rest => 1 + jsonWeight j + jsonListWeight rest

/-- Weight of a `JDict`. -/
def jdictWeight : List (String × Json) → Nat
  | [] => 1
  | (_, v) :: rest => 2 + jsonWeight v + jdictWeight rest

end

/-- The `field_type == 'string'` branch of `_create_example_value`
(lines 536-558): format-specific values first, then case-insensitive
substring heuristics on the field name, then the id rule (which does NOT
lowercase), then the generic fallback. -/
def stringExample (fieldName : String) (formatType : Option Json) : Json :=
  match formatType with
  | some (Json.str "email") => Json.str "user@example.com"
  | some (Json.str "date") => Json.str "2023-12-01"
  | some (Json.str "date-time") => Json.str "2023-12-01T10:00:00Z"
  | some (Json.str "uri") => Json.str "https://example.com"
  | _ =>
    let lower := pyLower fieldName
    if pyIn "password" lower then Json.str "SecurePassword123!"
    else if pyIn "email" lower then Json.str "user@example.com"
    else if pyIn "name" lower then Json.str "John Doe"
    else if pyIn "title" lower then Json.str "Example Title"
    else if pyIn "description" lower then Json.str "This is an example description"
    else if pyEndsWith fieldName "_id" || fieldName = "id" then Json.str "abc123"
    else Json.str ("example_" ++ fieldName)

/-- The `field_type == 'integer'` branch (lines 560-570).  The age, count
and port tests run on `field_name.lower()`; the id test does not. -/
def integerExample (fieldName : String) : Json :=
  let lower := pyLower fieldName
  if pyIn "age" lower then Json.num 25
  else if pyIn "count" lower then Json.num 10
  else if pyIn "port" lower then Json.num 8080
  else if pyEndsWith fieldName "_id" || fieldName = "id" then Json.num 123
  else Json.num 42

/-- The `field_type == 'number'` branch (lines 572-578). -/
def numberExample (fieldName : String) : Json :=
  let lower := pyLower fieldName
  if pyIn "price" lower then Json.num (19.99 : ℚ)
  else if pyIn "percentage" lower then Json.num (75.5 : ℚ)
  else Json.num (3.14 : ℚ)

/-- Fueled embedding of `_create_example_value`.  The `'object'` branch of
the source calls `_create_example_from_schema(schema)`; since that call
only happens when `schema.get('type', 'string') == 'object'` (so the
`'type'` key is present with value `'object'`), `_create_example_from_schema`
necessarily takes its own object branch (lines 500-507), which is inlined
here.  A call on a non-dict sub-schema is an `AttributeError` in CPython
(`.get` on a non-dict) and is embedded as an error. -/
def evFuel : Nat → String → JDict → Except String Json
  | 0, _, _ => Except.error "fuel exhausted"
  | fuel+1, fieldName, schema =>
    let fieldType := (schema.get "type").getD (Json.str "string")
    let formatType := schema.get "format"
    match schema.get "example" with
    | some ex => Except.ok ex
    | none =>
      match fieldType with
      | Json.str t =>
        if t = "string" then Except.ok (stringExample fieldName formatType)
        else if t = "integer" then Except.ok (integerExample fieldName)
        else if t = "number" then Except.ok (numberExample fieldName)
        else if t = "boolean" then Except.ok (Json.bool true)
        else if t = "array" then
          match schema.get "items" with
          | some (Json.obj items) =>
            (fun v => Json.arr [v]) <$> evFuel fuel "item" items
          | some _ => Except.error "AttributeError: get on a non-dict schema"
          | none =>
            -- the default item schema {'type': 'string'} has no 'example',
            -- no 'format': it lands in the string branch, name 'item'
            Except.ok (Json.arr [stringExample "item" none])
        else if t = "object" then
          match (schema.get "properties").getD (Json.obj []) with
          | Json.obj props =>
            (fun l => Json.obj l) <$> props.mapM (fun p =>
              match p.2 with
              | Json.obj ps => (fun v => (p.1, v)) <$> evFuel fuel p.1 ps
              | _ => Except.error "AttributeError: get on a non-dict schema")
          | _ => Except.error "AttributeError: items on non-dict properties"
        else Except.ok Json.null
      | _ => Except.ok Json.null

/-- Fueled embedding of `_create_example_from_schema` (lines 498-512):
dispatch on `schema.get('type')` (no default here, unlike
`_create_example_value`). -/
def efsFuel (fuel : Nat) (schema : JDict) : Except String Json :=
  match schema.get "type" with
  | some (Json.str t) =>
    if t = "object" then
      match (schema.get "properties").getD (Json.obj []) with
      | Json.obj props =>
        (fun l => Json.obj l) <$> props.mapM (fun p =>
          match p.2 with
          | Json.obj ps => (fun v => (p.1, v)) <$> evFuel fuel p.1 ps
          | _ => Except.error "AttributeError: get on a non-dict schema")
      | _ => Except.error "AttributeError: items on non-dict properties"
    else if t = "array" then
      match schema.get "items" with
      | some (Json.obj items) => (fun v => Json.arr [v]) <$> evFuel fuel "item" items
      | some _ => Except.error "AttributeError: get on a non-dict schema"
      | none => Except.ok (Json.arr [stringExample "item" none])
    else evFuel fuel "value" schema
  | _ => evFuel fuel "value" schema

/-- Embedding of `_create_example_value(field_name, schema)` for a
dict-shaped schema, with sufficient fuel. -/
def create_example_value (fieldName : String) (schema : JDict) : Except String Json :=
  evFuel (2 * jdictWeight schema + 4) fieldName schema

/-- Embedding of `_create_example_from_schema(schema)` for a dict-shaped
schema, with sufficient fuel. -/
def create_example_from_schema (schema : JDict) : Except String Json :=
  efsFuel (2 * jdictWeight schema + 4) schema

/-- Embedding of a Python `for ... in d.items()` loop that rebuilds the
processed entries and stops at the first raised exception. -/
def mapExcept {α β : Type} (f : α → Except String β) : List α → Except String (List β)
  | [] => Except.ok []
  | x :: xs => do
    let y ← f x
    let ys ← mapExcept f xs
    pure (y :: ys)

/-! ### Remaining example-synthesis helpers used by the Enricher -/

/-- Embedding of `_create_minimal_example` (lines 514-524): one example
value per `required` field that is declared under `properties`.  A
non-string entry of `required` cannot be a key of the string-keyed
`properties` dict, so it is skipped. -/
def create_minimal_example (schema : JDict) : Except String JDict := do
  let requiredVal := (JDict.get schema "required").getD (Json.arr [])
  let propertiesVal := (JDict.get schema "properties").getD (Json.obj [])
  match requiredVal with
  | Json.arr reqs =>
    reqs.foldlM
      (fun (ex : JDict) fn =>
        match fn with
        | Json.str fieldName =>
          match propertiesVal with
          | Json.obj props =>
            match JDict.get props fieldName with
            | some (Json.obj propSchema) => do
              let v ← evFuel (2 * jdictWeight propSchema + 4) fieldName propSchema
              pure (JDict.set ex fieldName v)
            | some _ => Except.error "AttributeError: get on a non-dict schema"
            | none => pure ex
          | _ => Except.error "TypeError: unsupported properties value"
        | _ => pure ex)
      []
  | _ => Except.error "TypeError: required is not a list"

/-- Embedding of `_generate_examples_from_schema` (lines 445-467): builds
the `examples` dict for a request body; empty unless the schema is
object-typed. -/
def generate_examples_from_schema (schemaVal : Json) : Except String Json := do
  match schemaVal with
  | Json.obj schema =>
    match JDict.get schema "type" with
    | some (Json.str "object") => do
      let exampleData ← create_example_from_schema schema
      let examples : JDict :=
        [("example_1", Json.obj
          [("summary", Json.str "Valid request example"),
           ("description", Json.str "A complete example with all available fields"),
           ("value", exampleData)])]
      if JDict.hasKey schema "required" then do
        let minimalData ← create_minimal_example schema
        pure (Json.obj (JDict.set examples "minimal_example" (Json.obj
          [("summary", Json.str "Minimal request example"),
           ("description", Json.str "Example with only required fields"),
           ("value", Json.obj minimalData)])))
      else
        pure (Json.obj examples)
    | _ => pure (Json.obj [])
  | _ => Except.error "AttributeError: get on a non-dict schema"

/-- Embedding of `_generate_response_examples` (lines 469-496): keyed by
the first character of the status code; only the 2xx branch consults the
schema. -/
def generate_response_examples (statusCode : String) (schemaVal : Json) :
    Except String Json := do
  if pyStartsWith statusCode "2" then do
    let v ← match schemaVal with
      | Json.obj schema => create_example_from_schema schema
      | _ => Except.error "AttributeError: get on a non-dict schema"
    pure (Json.obj
      [("success", Json.obj
        [("summary", Json.str "Successful response"), ("value", v)])])
  else if pyStartsWith statusCode "4" then
    pure (Json.obj
      [("error", Json.obj
        [("summary", Json.str "Error response"),
         ("value", Json.obj
           [("error", Json.str "Bad Request"),
            ("message", Json.str "Invalid input provided"),
            ("details", Json.arr [Json.str "Field validation failed"])])])])
  else if pyStartsWith statusCode "5" then
    pure (Json.obj
      [("server_error", Json.obj
        [("summary", Json.str "Server error response"),
         ("value", Json.obj
           [("error", Json.str "Internal Server Error"),
            ("message", Json.str "An unexpected error occurred")])])])
  else
    pure (Json.obj [])

/-! ### `_enhance_operation` (lines 430-443) and `_enhance_openapi_spec`
(lines 352-414)

The enricher only produces and consumes dict-shaped specifications; the
embedding reports an error wherever a non-dict value would make the
CPython attribute accesses of these methods raise. -/

/-- One `content_type → content` entry of a request body: add `examples`
when a `schema` is present and `examples` is not. -/
def enhanceContentEntryReq (p : String × Json) : Except String (String × Json) :=
  match p.2 with
  | Json.obj c =>
    match JDict.get c "schema" with
    | some sch =>
      if JDict.hasKey c "examples" then pure p
      else do
        let exs ← generate_examples_from_schema sch
        pure (p.1, Json.obj (JDict.set c "examples" exs))
    | none => pure p
  | _ => Except.error "TypeError: content entry is not a dict"

/-- One `content_type → content` entry of a response, for a given status
code. -/
def enhanceContentEntryResp (statusCode : String) (p : String × Json) :
    Except String (String × Json) :=
  match p.2 with
  | Json.obj c =>
    match JDict.get c "schema" with
    | some sch =>
      if JDict.hasKey c "examples" then pure p
      else do
        let exs ← generate_response_examples statusCode sch
        pure (p.1, Json.obj (JDict.set c "examples" exs))
    | none => pure p
  | _ => Except.error "TypeError: content entry is not a dict"

/-- First section of `_enhance_operation` (lines 433-437): examples for
the request body content types. -/
def enhanceReqBody (op : JDict) : Except String JDict :=
  match JDict.get op "requestBody" with
  | none => pure op
  | some (Json.obj rb) =>
    match JDict.get rb "content" with
    | none => pure op
    | some (Json.obj content) => do
      let content ← mapExcept enhanceContentEntryReq content
      pure (JDict.set op "requestBody" (Json.obj (JDict.set rb "content" (Json.obj content))))
    | some _ => Except.error "TypeError: content is not a dict"
  | some _ => Except.error "AttributeError: get on a non-dict requestBody"

/-- One `status_code → response` entry of the responses loop. -/
def enhanceResponseEntry (r : String × Json) : Except String (String × Json) :=
  match r.2 with
  | Json.obj resp =>
    match JDict.get resp "content" with
    | none => pure r
    | some (Json.obj content) => do
      let content ← mapExcept (enhanceContentEntryResp r.1) content
      pure (r.1, Json.obj (JDict.set resp "content" (Json.obj content)))
    | some _ => Except.error "TypeError: content is not a dict"
  | _ => Except.error "AttributeError: get on a non-dict response"

/-- Second section of `_enhance_operation` (lines 439-443): examples for
every response content type. -/
def enhanceResponses (op : JDict) : Except String JDict :=
  match JDict.get op "responses" with
  | none => pure op
  | some (Json.obj resps) => do
    let resps ← mapExcept enhanceResponseEntry resps
    pure (JDict.set op "responses" (Json.obj resps))
  | some _ => Except.error "AttributeError: items on non-dict responses"

/-- Embedding of `_enhance_operation`: fill in missing request-body and
response examples, never touching entries that already have them. -/
def enhance_operation (opVal : Json) : Except String Json := do
  match opVal with
  | Json.obj op => do
    let op ← enhanceReqBody op
    let op ← enhanceResponses op
    pure (Json.obj op)
  | _ => Except.error "TypeError: operation is not a dict"

/-- The fixed three-entry server list assigned by the enricher. -/
def defaultServers : Json :=
  Json.arr
    [Json.obj [("url", Json.str "http://localhost:8000"),
               ("description", Json.str "Development server")],
     Json.obj [("url", Json.str "http://localhost:5000"),
               ("description", Json.str "Alternative development server")],
     Json.obj [("url", Json.str "https://api.example.com"),
               ("description", Json.str "Production server")]]

/-- The contact block the enricher writes into `info`. -/
def defaultContact : Json :=
  Json.obj [("name", Json.str "API Support"),
            ("email", Json.str "api-support@example.com"),
            ("url", Json.str "https://example.com/support")]

/-- The license block the enricher writes into `info`. -/
def defaultLicense : Json :=
  Json.obj [("name", Json.str "MIT"),
            ("url", Json.str "https://opensource.org/licenses/MIT")]

/-- The terms-of-service value the enricher writes into `info`. -/
def defaultTermsOfService : Json :=
  Json.str "https://example.com/terms"

/-- The two default security schemes (HTTP bearer and header API key). -/
def defaultSecuritySchemes : Json :=
  Json.obj
    [("bearerAuth", Json.obj
      [("type", Json.str "http"),
       ("scheme", Json.str "bearer"),
       ("bearerFormat", Json.str "JWT")]),
     ("apiKey", Json.obj
      [("type", Json.str "apiKey"),
       ("in", Json.str "header"),
       ("name", Json.str "X-API-Key")])]

/-- Stage 1 of `_enhance_openapi_spec` (lines 355-369): overwrite
`servers` with the fixed default list. -/
def enhanceServers (spec : JDict) : JDict :=
  JDict.set spec "servers" defaultServers

/-- Stage 2 (lines 371-385): `spec['info'] = {**info, 'contact': ..,
'license': .., 'termsOfService': ..}` with `info = spec.get('info', {})`.
The dict splat keeps existing entries in order, then the three fixed keys
are assigned — overwriting any previous value under those keys. -/
def enhanceInfo (spec : JDict) : Except String JDict := do
  let info ← match (JDict.get spec "info").getD (Json.obj []) with
    | Json.obj o => pure o
    | _ => Except.error "TypeError: info is not a mapping"
  pure (JDict.set spec "info" (Json.obj
    (JDict.set (JDict.set (JDict.set info "contact" defaultContact)
      "license" defaultLicense) "termsOfService" defaultTermsOfService)))

/-- Stage 3a (lines 388-389): `if 'components' not in spec:
spec['components'] = {}`. -/
def ensureComponents (spec : JDict) : JDict :=
  if JDict.hasKey spec "components" then spec
  else JDict.set spec "components" (Json.obj [])

/-- Stage 3b (lines 391-403): add the two default security schemes only
when the `securitySchemes` key is absent from `spec['components']`. -/
def addSecuritySchemes (spec : JDict) : Except String JDict := do
  let comps ← match JDict.get spec "components" with
    | some (Json.obj o) => pure o
    | some _ => Except.error "TypeError: components is not a dict"
    | none => Except.error "KeyError: components"
  pure (if JDict.hasKey comps "securitySchemes" then spec
    else JDict.set spec "components"
      (Json.obj (JDict.set comps "securitySchemes" defaultSecuritySchemes)))

/-- Stage 4 (lines 406-407): derive `tags` from the path keys only when
the `tags` key is absent. -/
def addTags (spec : JDict) : Except String JDict :=
  if JDict.hasKey spec "tags" then pure spec
  else
    match (JDict.get spec "paths").getD (Json.obj []) with
    | Json.obj paths =>
      pure (JDict.set spec "tags" (Json.arr (generate_tags_from_paths paths)))
    | _ => Except.error "AttributeError: keys on non-dict paths"

/-- Inner body of the stage-5 loop: one `method → operation` entry. -/
def enhanceMethodEntry (mo : String × Json) : Except String (String × Json) := do
  let op ← enhance_operation mo.2
  pure (mo.1, op)

/-- Outer body of the stage-5 loop: one `path → methods` entry. -/
def enhancePathEntry (pm : String × Json) : Except String (String × Json) :=
  match pm.2 with
  | Json.obj methods => do
    let methods ← mapExcept enhanceMethodEntry methods
    pure (pm.1, Json.obj methods)
  | _ => Except.error "AttributeError: items on non-dict methods"

/-- Stage 5 (lines 410-412): run `_enhance_operation` on every operation
of every path.  When `paths` is absent the loop runs over the temporary
default `{}` and the spec is untouched. -/
def enhancePaths (spec : JDict) : Except String JDict :=
  match JDict.get spec "paths" with
  | none => pure spec
  | some (Json.obj paths) => do
    let paths ← mapExcept enhancePathEntry paths
    pure (JDict.set spec "paths" (Json.obj paths))
  | some _ => Except.error "AttributeError: items on non-dict paths"

/-- Embedding of `_enhance_openapi_spec` (lines 352-414), as the
sequence of its five stages in source order: servers, info, security
schemes, tags, per-operation examples. -/
def enhance_openapi_spec (spec : JDict) : Except String JDict := do
  let spec := enhanceServers spec
  let spec ← enhanceInfo spec
  let spec ← addSecuritySchemes (ensureComponents spec)
  let spec ← addTags spec
  enhancePaths spec

/-! ### Generic lemmas about `mapExcept` -/

theorem mapExcept_id {α : Type} (l : List α) (f : α → Except String α)
    (h : ∀ x ∈ l, f x = Except.ok x) : mapExcept f l = Except.ok l := by
  induction l with
  | nil => simp [mapExcept]
  | cons x xs ih =>
    have hx := h x (by simp)
    have ihh := ih (fun y hy => h y (by simp [hy]))
    simp [mapExcept, hx, ihh]
    rfl

theorem mapExcept_mem {α β : Type} (l : List α) (l2 : List β) (f : α → Except String β)
    (h : mapExcept f l = Except.ok l2) : ∀ y ∈ l2, ∃ x ∈ l, f x = Except.ok y := by
  induction l generalizing l2 with
  | nil =>
    simp [mapExcept] at h
    subst h
    simp
  | cons x xs ih =>
    rw [mapExcept] at h
    cases hfx : f x with
    | error e => simp [hfx, Bind.bind, Except.bind] at h
    | ok y0 =>
      cases hxs : mapExcept f xs with
      | error e => simp [hfx, hxs, Bind.bind, Except.bind] at h
      | ok ys =>
        simp [hfx, hxs, Bind.bind, Except.bind, Pure.pure, Except.pure] at h
        intro y hy
        rw [← h] at hy
        rcases List.mem_cons.mp hy with rfl | hy2
        · exact ⟨x, by simp, hfx⟩
        · obtain ⟨x2, hx2, hfx2⟩ := ih ys hxs y hy2
          exact ⟨x2, by simp [hx2], hfx2⟩

/-! ### Idempotence of the per-entry enrichment steps -/

theorem reqEntry_idem (p q : String × Json)
    (h : enhanceContentEntryReq p = Except.ok q) :
    enhanceContentEntryReq q = Except.ok q := by
  obtain ⟨k, c⟩ := p
  cases c with
  | obj c =>
    cases hs : JDict.get c "schema" with
    | none =>
      simp [enhanceContentEntryReq, hs, Pure.pure, Except.pure] at h
      subst h
      simp [enhanceContentEntryReq, hs, Pure.pure, Except.pure]
    | some sch =>
      by_cases hex : JDict.hasKey c "examples"
      · simp [enhanceContentEntryReq, hs, hex, Pure.pure, Except.pure] at h
        subst h
        simp [enhanceContentEntryReq, hs, hex, Pure.pure, Except.pure]
      · cases hgen : generate_examples_from_schema sch with
        | error e =>
          simp [enhanceContentEntryReq, hs, hex, hgen, Bind.bind, Except.bind] at h
        | ok exs =>
          simp [enhanceContentEntryReq, hs, hex, hgen, Bind.bind, Except.bind,
            Pure.pure, Except.pure] at h
          subst h
          have hs2 : JDict.get (JDict.set c "examples" exs) "schema" = some sch := by
            rw [JDict.get_set_ne c exs (by decide)]
            exact hs
          simp [enhanceContentEntryReq, hs2, JDict.hasKey_set_self,
            Pure.pure, Except.pure]
  | null => simp [enhanceContentEntryReq] at h
  | bool b => simp [enhanceContentEntryReq] at h
  | num n => simp [enhanceContentEntryReq] at h
  | str s => simp [enhanceContentEntryReq] at h
  | arr l => simp [enhanceContentEntryReq] at h

theorem respContentEntry_idem (status : String) (p q : String × Json)
    (h : enhanceContentEntryResp status p = Except.ok q) :
    enhanceContentEntryResp status q = Except.ok q := by
  obtain ⟨k, c⟩ := p
  cases c with
  | obj c =>
    cases hs : JDict.get c "schema" with
    | none =>
      simp [enhanceContentEntryResp, hs, Pure.pure, Except.pure] at h
      subst h
      simp [enhanceContentEntryResp, hs, Pure.pure, Except.pure]
    | some sch =>
      by_cases hex : JDict.hasKey c "examples"
      · simp [enhanceContentEntryResp, hs, hex, Pure.pure, Except.pure] at h
        subst h
        simp [enhanceContentEntryResp, hs, hex, Pure.pure, Except.pure]
      · cases hgen : generate_response_examples status sch with
        | error e =>
          simp [enhanceContentEntryResp, hs, hex, hgen, Bind.bind, Except.bind] at h
        | ok exs =>
          simp [enhanceContentEntryResp, hs, hex, hgen, Bind.bind, Except.bind,
            Pure.pure, Except.pure] at h
          subst h
          have hs2 : JDict.get (JDict.set c "examples" exs) "schema" = some sch := by
            rw [JDict.get_set_ne c exs (by decide)]
            exact hs
          simp [enhanceContentEntryResp, hs2, JDict.hasKey_set_self,
            Pure.pure, Except.pure]
  | null => simp [enhanceContentEntryResp] at h
  | bool b => simp [enhanceContentEntryResp] at h
  | num n => simp [enhanceContentEntryResp] at h
  | str s => simp [enhanceContentEntryResp] at h
  | arr l => simp [enhanceContentEntryResp] at h

theorem respEntry_idem (p q : String × Json)
    (h : enhanceResponseEntry p = Except.ok q) :
    enhanceResponseEntry q = Except.ok q := by
  obtain ⟨k, c⟩ := p
  cases c with
  | obj resp =>
    cases hc : JDict.get resp "content" with
    | none =>
      simp [enhanceResponseEntry, hc, Pure.pure, Except.pure] at h
      subst h
      simp [enhanceResponseEntry, hc, Pure.pure, Except.pure]
    | some cv =>
      cases cv with
      | obj content =>
        cases hm : mapExcept (enhanceContentEntryResp k) content with
        | error e =>
          simp [enhanceResponseEntry, hc, hm, Bind.bind, Except.bind] at h
        | ok content2 =>
          simp [enhanceResponseEntry, hc, hm, Bind.bind, Except.bind,
            Pure.pure, Except.pure] at h
          subst h
          have hc2 : JDict.get (JDict.set resp "content" (Json.obj content2)) "content"
              = some (Json.obj content2) := JDict.get_set_self resp "content" _
          have hall : ∀ x ∈ content2, enhanceContentEntryResp k x = Except.ok x := by
            intro x hx
            obtain ⟨x0, hx0, hfx0⟩ := mapExcept_mem content content2 _ hm x hx
            exact respContentEntry_idem k x0 x hfx0
          simp [enhanceResponseEntry, hc2, mapExcept_id content2 _ hall,
            Bind.bind, Except.bind, Pure.pure, Except.pure,
            JDict.set_self hc2]
      | null => simp [enhanceResponseEntry, hc] at h
      | bool b => simp [enhanceResponseEntry, hc] at h
      | num n => simp [enhanceResponseEntry, hc] at h
      | str s => simp [enhanceResponseEntry, hc] at h
      | arr l => simp [enhanceResponseEntry, hc] at h
  | null => simp [enhanceResponseEntry] at h
  | bool b => simp [enhanceResponseEntry] at h
  | num n => simp [enhanceResponseEntry] at h
  | str s => simp [enhanceResponseEntry] at h
  | arr l => simp [enhanceResponseEntry] at h

/-- State of an operation whose request-body content already carries all
the examples the enricher would add. -/
def ReqBodyEnhanced (op : JDict) : Prop :=
  match JDict.get op "requestBody" with
  | none => True
  | some (Json.obj rb) =>
    match JDict.get rb "content" with
    | none => True
    | some (Json.obj content) => ∀ p ∈ content, enhanceContentEntryReq p = Except.ok p
    | some _ => False
  | some _ => False

/-- State of an operation whose responses already carry all the examples
the enricher would add. -/
def RespEnhanced (op : JDict) : Prop :=
  match JDict.get op "responses" with
  | none => True
  | some (Json.obj resps) => ∀ r ∈ resps, enhanceResponseEntry r = Except.ok r
  | some _ => False

theorem enhanceReqBody_ok_enhanced (op op' : JDict)
    (h : enhanceReqBody op = Except.ok op') : ReqBodyEnhanced op' := by
  unfold enhanceReqBody at h
  cases hrb : JDict.get op "requestBody" with
  | none =>
    simp [hrb, Pure.pure, Except.pure] at h
    subst h
    simp [ReqBodyEnhanced, hrb]
  | some rbv =>
    cases rbv with
    | obj rb =>
      cases hc : JDict.get rb "content" with
      | none =>
        simp [hrb, hc, Pure.pure, Except.pure] at h
        subst h
        simp [ReqBodyEnhanced, hrb, hc]
      | some cv =>
        cases cv with
        | obj content =>
          cases hm : mapExcept enhanceContentEntryReq content with
          | error e => simp [hrb, hc, hm, Bind.bind, Except.bind] at h
          | ok content2 =>
            simp [hrb, hc, hm, Bind.bind, Except.bind, Pure.pure, Except.pure] at h
            subst h
            simp only [ReqBodyEnhanced, JDict.get_set_self]
            intro p hp
            obtain ⟨p0, hp0, hfp0⟩ := mapExcept_mem content content2 _ hm p hp
            exact reqEntry_idem p0 p hfp0
        | null => simp [hrb, hc] at h
        | bool b => simp [hrb, hc] at h
        | num n => simp [hrb, hc] at h
        | str s => simp [hrb, hc] at h
        | arr l => simp [hrb, hc] at h
    | null => simp [hrb] at h
    | bool b => simp [hrb] at h
    | num n => simp [hrb] at h
    | str s => simp [hrb] at h
    | arr l => simp [hrb] at h

theorem enhanceReqBody_of_enhanced (op : JDict) (h : ReqBodyEnhanced op) :
    enhanceReqBody op = Except.ok op := by
  unfold ReqBodyEnhanced at h
  cases hrb : JDict.get op "requestBody" with
  | none => simp [enhanceReqBody, hrb, Pure.pure, Except.pure]
  | some rbv =>
    rw [hrb] at h
    cases rbv with
    | obj rb =>
      simp only [] at h
      cases hc : JDict.get rb "content" with
      | none => simp [enhanceReqBody, hrb, hc, Pure.pure, Except.pure]
      | some cv =>
        rw [hc] at h
        cases cv with
        | obj content =>
          simp only [] at h
          simp [enhanceReqBody, hrb, hc, mapExcept_id content _ h,
            Bind.bind, Except.bind, Pure.pure, Except.pure,
            JDict.set_self hc, JDict.set_self hrb]
        | null => simp at h
        | bool b => simp at h
        | num n => simp at h
        | str s => simp at h
        | arr l => simp at h
    | null => simp at h
    | bool b => simp at h
    | num n => simp at h
    | str s => simp at h
    | arr l => simp at h

theorem enhanceResponses_ok_enhanced (op op' : JDict)
    (h : enhanceResponses op = Except.ok op') : RespEnhanced op' := by
  unfold enhanceResponses at h
  cases hr : JDict.get op "responses" with
  | none =>
    simp [hr, Pure.pure, Except.pure] at h
    subst h
    simp [RespEnhanced, hr]
  | some rv =>
    cases rv with
    | obj resps =>
      cases hm : mapExcept enhanceResponseEntry resps with
      | error e => simp [hr, hm, Bind.bind, Except.bind] at h
      | ok resps2 =>
        simp [hr, hm, Bind.bind, Except.bind, Pure.pure, Except.pure] at h
        subst h
        simp only [RespEnhanced, JDict.get_set_self]
        intro r hrr
        obtain ⟨r0, hr0, hfr0⟩ := mapExcept_mem resps resps2 _ hm r hrr
        exact respEntry_idem r0 r hfr0
    | null => simp [hr] at h
    | bool b => simp [hr] at h
    | num n => simp [hr] at h
    | str s => simp [hr] at h
    | arr l => simp [hr] at h

theorem enhanceResponses_of_enhanced (op : JDict) (h : RespEnhanced op) :
    enhanceResponses op = Except.ok op := by
  unfold RespEnhanced at h
  cases hr : JDict.get op "responses" with
  | none => simp [enhanceResponses, hr, Pure.pure, Except.pure]
  | some rv =>
    rw [hr] at h
    cases rv with
    | obj resps =>
      simp only [] at h
      simp [enhanceResponses, hr, mapExcept_id resps _ h,
        Bind.bind, Except.bind, Pure.pure, Except.pure, JDict.set_self hr]
    | null => simp at h
    | bool b => simp at h
    | num n => simp at h
    | str s => simp at h
    | arr l => simp at h

theorem enhanceReqBody_frame (op op' : JDict) (h : enhanceReqBody op = Except.ok op')
    (k : String) (hk : k ≠ "requestBody") : JDict.get op' k = JDict.get op k := by
  unfold enhanceReqBody at h
  cases hrb : JDict.get op "requestBody" with
  | none =>
    simp [hrb, Pure.pure, Except.pure] at h
    subst h
    rfl
  | some rbv =>
    cases rbv with
    | obj rb =>
      cases hc : JDict.get rb "content" with
      | none =>
        simp [hrb, hc, Pure.pure, Except.pure] at h
        subst h
        rfl
      | some cv =>
        cases cv with
        | obj content =>
          cases hm : mapExcept enhanceContentEntryReq content with
          | error e => simp [hrb, hc, hm, Bind.bind, Except.bind] at h
          | ok content2 =>
            simp [hrb, hc, hm, Bind.bind, Except.bind, Pure.pure, Except.pure] at h
            subst h
            exact JDict.get_set_ne op _ hk
        | null => simp [hrb, hc] at h
        | bool b => simp [hrb, hc] at h
        | num n => simp [hrb, hc] at h
        | str s => simp [hrb, hc] at h
        | arr l => simp [hrb, hc] at h
    | null => simp [hrb] at h
    | bool b => simp [hrb] at h
    | num n => simp [hrb] at h
    | str s => simp [hrb] at h
    | arr l => simp [hrb] at h

theorem enhanceResponses_frame (op op' : JDict) (h : enhanceResponses op = Except.ok op')
    (k : String) (hk : k ≠ "responses") : JDict.get op' k = JDict.get op k := by
  unfold enhanceResponses at h
  cases hr : JDict.get op "responses" with
  | none =>
    simp [hr, Pure.pure, Except.pure] at h
    subst h
    rfl
  | some rv =>
    cases rv with
    | obj resps =>
      cases hm : mapExcept enhanceResponseEntry resps with
      | error e => simp [hr, hm, Bind.bind, Except.bind] at h
      | ok resps2 =>
        simp [hr, hm, Bind.bind, Except.bind, Pure.pure, Except.pure] at h
        subst h
        exact JDict.get_set_ne op _ hk
    | null => simp [hr] at h
    | bool b => simp [hr] at h
    | num n => simp [hr] at h
    | str s => simp [hr] at h
    | arr l => simp [hr] at h

/-- Re-running `_enhance_operation` on its own output changes nothing:
the examples the first run added make every `'examples' not in content`
test fail on the second run. -/
theorem enhance_operation_idem (opVal opVal' : Json)
    (h : enhance_operation opVal = Except.ok opVal') :
    enhance_operation opVal' = Except.ok opVal' := by
  cases opVal with
  | obj o =>
    cases hr : enhanceReqBody o with
    | error e => simp [enhance_operation, hr, Bind.bind, Except.bind] at h
    | ok o1 =>
      cases hs : enhanceResponses o1 with
      | error e => simp [enhance_operation, hr, hs, Bind.bind, Except.bind] at h
      | ok o2 =>
        simp [enhance_operation, hr, hs, Bind.bind, Except.bind,
          Pure.pure, Except.pure] at h
        subst h
        have hR1 : ReqBodyEnhanced o1 := enhanceReqBody_ok_enhanced o o1 hr
        have hF : JDict.get o2 "requestBody" = JDict.get o1 "requestBody" :=
          enhanceResponses_frame o1 o2 hs "requestBody" (by decide)
        have hR2 : ReqBodyEnhanced o2 := by
          unfold ReqBodyEnhanced at hR1 ⊢
          rw [hF]
          exact hR1
        have hS2 : RespEnhanced o2 := enhanceResponses_ok_enhanced o1 o2 hs
        simp [enhance_operation, enhanceReqBody_of_enhanced o2 hR2,
          enhanceResponses_of_enhanced o2 hS2, Bind.bind, Except.bind,
          Pure.pure, Except.pure]
  | null => simp [enhance_operation] at h
  | bool b => simp [enhance_operation] at h
  | num n => simp [enhance_operation] at h
  | str s => simp [enhance_operation] at h
  | arr l => simp [enhance_operation] at h

/-! ### Per-stage lemmas about the enricher -/

theorem enhanceServers_get_servers (s : JDict) :
    JDict.get (enhanceServers s) "servers" = some defaultServers :=
  JDict.get_set_self s "servers" defaultServers

theorem enhanceServers_frame (s : JDict) (k : String) (hk : k ≠ "servers") :
    JDict.get (enhanceServers s) k = JDict.get s k :=
  JDict.get_set_ne s defaultServers hk

theorem enhanceServers_stable (s : JDict)
    (h : JDict.get s "servers" = some defaultServers) : enhanceServers s = s :=
  JDict.set_self h

theorem enhanceInfo_ok_facts (s t : JDict) (h : enhanceInfo s = Except.ok t) :
    ∃ info, JDict.get t "info" = some (Json.obj info) ∧
      JDict.get info "contact" = some defaultContact ∧
      JDict.get info "license" = some defaultLicense ∧
      JDict.get info "termsOfService" = some defaultTermsOfService := by
  unfold enhanceInfo at h
  cases hiv : (JDict.get s "info").getD (Json.obj []) with
  | obj o =>
    simp [hiv, Bind.bind, Except.bind, Pure.pure, Except.pure] at h
    subst h
    refine ⟨_, JDict.get_set_self _ _ _, ?_, ?_, ?_⟩
    · rw [JDict.get_set_ne _ _ (by decide), JDict.get_set_ne _ _ (by decide)]
      exact JDict.get_set_self _ _ _
    · rw [JDict.get_set_ne _ _ (by decide)]
      exact JDict.get_set_self _ _ _
    · exact JDict.get_set_self _ _ _
  | null => simp [hiv, Bind.bind, Except.bind] at h
  | bool b => simp [hiv, Bind.bind, Except.bind] at h
  | num n => simp [hiv, Bind.bind, Except.bind] at h
  | str s2 => simp [hiv, Bind.bind, Except.bind] at h
  | arr l => simp [hiv, Bind.bind, Except.bind] at h

theorem enhanceInfo_preserves (s t : JDict) (h : enhanceInfo s = Except.ok t)
    (k : String) (hk1 : k ≠ "contact") (hk2 : k ≠ "license")
    (hk3 : k ≠ "termsOfService") (info : JDict) (v : Json)
    (hinfo : JDict.get s "info" = some (Json.obj info))
    (hv : JDict.get info k = some v) :
    ∃ info', JDict.get t "info" = some (Json.obj info') ∧
      JDict.get info' k = some v := by
  unfold enhanceInfo at h
  rw [hinfo] at h
  simp [Bind.bind, Except.bind, Pure.pure, Except.pure] at h
  subst h
  refine ⟨_, JDict.get_set_self _ _ _, ?_⟩
  rw [JDict.get_set_ne _ _ hk3, JDict.get_set_ne _ _ hk2, JDict.get_set_ne _ _ hk1]
  exact hv

theorem enhanceInfo_frame (s t : JDict) (h : enhanceInfo s = Except.ok t)
    (k : String) (hk : k ≠ "info") : JDict.get t k = JDict.get s k := by
  unfold enhanceInfo at h
  cases hiv : (JDict.get s "info").getD (Json.obj []) with
  | obj o =>
    simp [hiv, Bind.bind, Except.bind, Pure.pure, Except.pure] at h
    subst h
    exact JDict.get_set_ne s _ hk
  | null => simp [hiv, Bind.bind, Except.bind] at h
  | bool b => simp [hiv, Bind.bind, Except.bind] at h
  | num n => simp [hiv, Bind.bind, Except.bind] at h
  | str s2 => simp [hiv, Bind.bind, Except.bind] at h
  | arr l => simp [hiv, Bind.bind, Except.bind] at h

theorem enhanceInfo_stable (s : JDict) (info : JDict)
    (hinfo : JDict.get s "info" = some (Json.obj info))
    (hc : JDict.get info "contact" = some defaultContact)
    (hl : JDict.get info "license" = some defaultLicense)
    (ht : JDict.get info "termsOfService" = some defaultTermsOfService) :
    enhanceInfo s = Except.ok s := by
  unfold enhanceInfo
  rw [hinfo]
  simp [Bind.bind, Except.bind, Pure.pure, Except.pure,
    JDict.set_self hc, JDict.set_self hl, JDict.set_self ht, JDict.set_self hinfo]

theorem ensureComponents_hasKey (s : JDict) :
    JDict.hasKey (ensureComponents s) "components" = true := by
  unfold ensureComponents
  by_cases h : JDict.hasKey s "components"
  · simp [h]
  · simp [h, JDict.hasKey_set_self]

theorem ensureComponents_frame (s : JDict) (k : String) (hk : k ≠ "components") :
    JDict.get (ensureComponents s) k = JDict.get s k := by
  unfold ensureComponents
  by_cases h : JDict.hasKey s "components"
  · simp [h]
  · simp [h, JDict.get_set_ne s _ hk]

theorem ensureComponents_stable (s : JDict)
    (h : JDict.hasKey s "components" = true) : ensureComponents s = s := by
  simp [ensureComponents, h]

theorem addSecuritySchemes_ok_facts (s t : JDict)
    (h : addSecuritySchemes s = Except.ok t) :
    ∃ comps, JDict.get t "components" = some (Json.obj comps) ∧
      JDict.hasKey comps "securitySchemes" = true := by
  unfold addSecuritySchemes at h
  cases hc : JDict.get s "components" with
  | none => simp [hc, Bind.bind, Except.bind] at h
  | some cv =>
    cases cv with
    | obj comps =>
      by_cases hsk : JDict.hasKey comps "securitySchemes"
      · simp [hc, hsk, Bind.bind, Except.bind, Pure.pure, Except.pure] at h
        subst h
        exact ⟨comps, hc, hsk⟩
      · simp [hc, hsk, Bind.bind, Except.bind, Pure.pure, Except.pure] at h
        subst h
        exact ⟨_, JDict.get_set_self _ _ _, JDict.hasKey_set_self _ _ _⟩
    | null => simp [hc, Bind.bind, Except.bind] at h
    | bool b => simp [hc, Bind.bind, Except.bind] at h
    | num n => simp [hc, Bind.bind, Except.bind] at h
    | str s2 => simp [hc, Bind.bind, Except.bind] at h
    | arr l => simp [hc, Bind.bind, Except.bind] at h

theorem addSecuritySchemes_adds (s t : JDict) (comps : JDict)
    (h : addSecuritySchemes s = Except.ok t)
    (hc : JDict.get s "components" = some (Json.obj comps))
    (habs : JDict.get comps "securitySchemes" = none) :
    JDict.get t "components"
      = some (Json.obj (JDict.set comps "securitySchemes" defaultSecuritySchemes)) := by
  unfold addSecuritySchemes at h
  rw [hc] at h
  have hsk : JDict.hasKey comps "securitySchemes" = false := by
    simp [JDict.hasKey, habs]
  simp [hsk, Bind.bind, Except.bind, Pure.pure, Except.pure] at h
  subst h
  exact JDict.get_set_self _ _ _

theorem addSecuritySchemes_keeps (s t : JDict) (comps : JDict) (v : Json)
    (h : addSecuritySchemes s = Except.ok t)
    (hc : JDict.get s "components" = some (Json.obj comps))
    (hpres : JDict.get comps "securitySchemes" = some v) :
    t = s := by
  unfold addSecuritySchemes at h
  rw [hc] at h
  have hsk : JDict.hasKey comps "securitySchemes" = true := by
    simp [JDict.hasKey, hpres]
  simp [hsk, Bind.bind, Except.bind, Pure.pure, Except.pure] at h
  exact h.symm

theorem addSecuritySchemes_frame (s t : JDict)
    (h : addSecuritySchemes s = Except.ok t)
    (k : String) (hk : k ≠ "components") : JDict.get t k = JDict.get s k := by
  unfold addSecuritySchemes at h
  cases hc : JDict.get s "components" with
  | none => simp [hc, Bind.bind, Except.bind] at h
  | some cv =>
    cases cv with
    | obj comps =>
      by_cases hsk : JDict.hasKey comps "securitySchemes"
      · simp [hc, hsk, Bind.bind, Except.bind, Pure.pure, Except.pure] at h
        subst h
        rfl
      · simp [hc, hsk, Bind.bind, Except.bind, Pure.pure, Except.pure] at h
        subst h
        exact JDict.get_set_ne s _ hk
    | null => simp [hc, Bind.bind, Except.bind] at h
    | bool b => simp [hc, Bind.bind, Except.bind] at h
    | num n => simp [hc, Bind.bind, Except.bind] at h
    | str s2 => simp [hc, Bind.bind, Except.bind] at h
    | arr l => simp [hc, Bind.bind, Except.bind] at h

theorem addSecuritySchemes_stable (s : JDict) (comps : JDict)
    (hc : JDict.get s "components" = some (Json.obj comps))
    (hsk : JDict.hasKey comps "securitySchemes" = true) :
    addSecuritySchemes s = Except.ok s := by
  unfold addSecuritySchemes
  rw [hc]
  simp [hsk, Bind.bind, Except.bind, Pure.pure, Except.pure]

theorem addTags_ok_isSome (s t : JDict) (h : addTags s = Except.ok t) :
    (JDict.get t "tags").isSome = true := by
  unfold addTags at h
  by_cases htag : JDict.hasKey s "tags"
  · simp [htag, Pure.pure, Except.pure] at h
    subst h
    obtain ⟨v, hv⟩ := JDict.get_of_hasKey htag
    simp [hv]
  · cases hp : (JDict.get s "paths").getD (Json.obj []) with
    | obj paths =>
      simp [htag, hp, Pure.pure, Except.pure] at h
      subst h
      simp [JDict.get_set_self]
    | null => simp [htag, hp] at h
    | bool b => simp [htag, hp] at h
    | num n => simp [htag, hp] at h
    | str s2 => simp [htag, hp] at h
    | arr l => simp [htag, hp] at h

theorem addTags_frame (s t : JDict) (h : addTags s = Except.ok t)
    (k : String) (hk : k ≠ "tags") : JDict.get t k = JDict.get s k := by
  unfold addTags at h
  by_cases htag : JDict.hasKey s "tags"
  · simp [htag, Pure.pure, Except.pure] at h
    subst h
    rfl
  · cases hp : (JDict.get s "paths").getD (Json.obj []) with
    | obj paths =>
      simp [htag, hp, Pure.pure, Except.pure] at h
      subst h
      exact JDict.get_set_ne s _ hk
    | null => simp [htag, hp] at h
    | bool b => simp [htag, hp] at h
    | num n => simp [htag, hp] at h
    | str s2 => simp [htag, hp] at h
    | arr l => simp [htag, hp] at h

theorem addTags_stable (s : JDict) (h : JDict.hasKey s "tags" = true) :
    addTags s = Except.ok s := by
  simp [addTags, h, Pure.pure, Except.pure]

/-- State of a spec whose operations have all been enhanced. -/
def PathsEnhanced (t : JDict) : Prop :=
  match JDict.get t "paths" with
  | none => True
  | some (Json.obj paths) =>
    ∀ pm ∈ paths, ∃ methods, pm.2 = Json.obj methods ∧
      ∀ mo ∈ methods, enhance_operation mo.2 = Except.ok mo.2
  | some _ => False

theorem enhancePaths_ok_facts (s t : JDict) (h : enhancePaths s = Except.ok t) :
    PathsEnhanced t := by
  unfold enhancePaths at h
  cases hp : JDict.get s "paths" with
  | none =>
    simp [hp, Pure.pure, Except.pure] at h
    subst h
    simp [PathsEnhanced, hp]
  | some pv =>
    cases pv with
    | obj paths =>
      cases hm : mapExcept enhancePathEntry paths with
      | error e => simp [hp, hm, Bind.bind, Except.bind] at h
      | ok paths2 =>
        simp [hp, hm, Bind.bind, Except.bind, Pure.pure, Except.pure] at h
        subst h
        simp only [PathsEnhanced, JDict.get_set_self]
        intro pm hpm
        obtain ⟨pm0, hpm0, hfpm0⟩ := mapExcept_mem paths paths2 _ hm pm hpm
        cases hmv : pm0.2 with
        | obj methods0 =>
          rw [enhancePathEntry, hmv] at hfpm0
          simp only [] at hfpm0
          cases hmm : mapExcept enhanceMethodEntry methods0 with
          | error e => simp [hmm, Bind.bind, Except.bind] at hfpm0
          | ok methods2 =>
            simp [hmm, Bind.bind, Except.bind, Pure.pure, Except.pure] at hfpm0
            refine ⟨methods2, by rw [← hfpm0], ?_⟩
            intro mo hmo
            obtain ⟨mo0, hmo0, hfmo0⟩ := mapExcept_mem methods0 methods2 _ hmm mo hmo
            cases hop : enhance_operation mo0.2 with
            | error e => simp [enhanceMethodEntry, hop, Bind.bind, Except.bind] at hfmo0
            | ok op2 =>
              simp [enhanceMethodEntry, hop, Bind.bind, Except.bind,
                Pure.pure, Except.pure] at hfmo0
              have hmo2 : mo.2 = op2 := by rw [← hfmo0]
              rw [hmo2]
              exact enhance_operation_idem mo0.2 op2 hop
        | null => rw [enhancePathEntry, hmv] at hfpm0; simp at hfpm0
        | bool b => rw [enhancePathEntry, hmv] at hfpm0; simp at hfpm0
        | num n => rw [enhancePathEntry, hmv] at hfpm0; simp at hfpm0
        | str s2 => rw [enhancePathEntry, hmv] at hfpm0; simp at hfpm0
        | arr l => rw [enhancePathEntry, hmv] at hfpm0; simp at hfpm0
    | null => simp [hp] at h
    | bool b => simp [hp] at h
    | num n => simp [hp] at h
    | str s2 => simp [hp] at h
    | arr l => simp [hp] at h

theorem enhancePaths_frame (s t : JDict) (h : enhancePaths s = Except.ok t)
    (k : String) (hk : k ≠ "paths") : JDict.get t k = JDict.get s k := by
  unfold enhancePaths at h
  cases hp : JDict.get s "paths" with
  | none =>
    simp [hp, Pure.pure, Except.pure] at h
    subst h
    rfl
  | some pv =>
    cases pv with
    | obj paths =>
      cases hm : mapExcept enhancePathEntry paths with
      | error e => simp [hp, hm, Bind.bind, Except.bind] at h
      | ok paths2 =>
        simp [hp, hm, Bind.bind, Except.bind, Pure.pure, Except.pure] at h
        subst h
        exact JDict.get_set_ne s _ hk
    | null => simp [hp] at h
    | bool b => simp [hp] at h
    | num n => simp [hp] at h
    | str s2 => simp [hp] at h
    | arr l => simp [hp] at h

theorem enhancePaths_stable (s : JDict) (h : PathsEnhanced s) :
    enhancePaths s = Except.ok s := by
  unfold PathsEnhanced at h
  cases hp : JDict.get s "paths" with
  | none => simp [enhancePaths, hp, Pure.pure, Except.pure]
  | some pv =>
    rw [hp] at h
    cases pv with
    | obj paths =>
      simp only [] at h
      have hmap : mapExcept enhancePathEntry paths = Except.ok paths := by
        apply mapExcept_id
        intro pm hpm
        obtain ⟨methods, hmv, hall⟩ := h pm hpm
        rw [enhancePathEntry, hmv]
        simp only []
        have hinner : mapExcept enhanceMethodEntry methods = Except.ok methods := by
          apply mapExcept_id
          intro mo hmo
          simp [enhanceMethodEntry, hall mo hmo, Bind.bind, Except.bind,
            Pure.pure, Except.pure]
        simp [hinner, Bind.bind, Except.bind, Pure.pure, Except.pure]
        rw [← hmv]
      simp [enhancePaths, hp, hmap, Bind.bind, Except.bind, Pure.pure, Except.pure,
        JDict.set_self hp]
    | null => simp at h
    | bool b => simp at h
    | num n => simp at h
    | str s2 => simp at h
    | arr l => simp at h

/-- Everything the enricher establishes about its output. -/
def SpecEnriched (t : JDict) : Prop :=
  JDict.get t "servers" = some defaultServers ∧
  (∃ info, JDict.get t "info" = some (Json.obj info) ∧
     JDict.get info "contact" = some defaultContact ∧
     JDict.get info "license" = some defaultLicense ∧
     JDict.get info "termsOfService" = some defaultTermsOfService) ∧
  (∃ comps, JDict.get t "components" = some (Json.obj comps) ∧
     JDict.hasKey comps "securitySchemes" = true) ∧
  (JDict.get t "tags").isSome = true ∧
  PathsEnhanced t

theorem enriched_of_ok (s t : JDict) (h : enhance_openapi_spec s = Except.ok t) :
    SpecEnriched t := by
  unfold enhance_openapi_spec at h
  simp only [] at h
  cases h1 : enhanceInfo (enhanceServers s) with
  | error e => simp [h1, Bind.bind, Except.bind] at h
  | ok t1 =>
    rw [h1] at h
    simp only [Bind.bind, Except.bind] at h
    cases h2 : addSecuritySchemes (ensureComponents t1) with
    | error e => simp [h2, Bind.bind, Except.bind] at h
    | ok t2 =>
      rw [h2] at h
      simp only [Bind.bind, Except.bind] at h
      cases h3 : addTags t2 with
      | error e => simp [h3, Bind.bind, Except.bind] at h
      | ok t3 =>
        rw [h3] at h
        simp only [Bind.bind, Except.bind] at h
        have fr1 : ∀ k, k ≠ "info" →
            JDict.get t1 k = JDict.get (enhanceServers s) k :=
          fun k hk => enhanceInfo_frame _ _ h1 k hk
        have fr2 : ∀ k, k ≠ "components" → JDict.get t2 k = JDict.get t1 k := by
          intro k hk
          rw [addSecuritySchemes_frame _ _ h2 k hk, ensureComponents_frame _ k hk]
        have fr3 : ∀ k, k ≠ "tags" → JDict.get t3 k = JDict.get t2 k :=
          fun k hk => addTags_frame _ _ h3 k hk
        have fr4 : ∀ k, k ≠ "paths" → JDict.get t k = JDict.get t3 k :=
          fun k hk => enhancePaths_frame _ _ h k hk
        refine ⟨?_, ?_, ?_, ?_, enhancePaths_ok_facts _ _ h⟩
        · rw [fr4 "servers" (by decide), fr3 "servers" (by decide),
            fr2 "servers" (by decide), fr1 "servers" (by decide)]
          exact enhanceServers_get_servers s
        · obtain ⟨info, hi, hic, hil, hit⟩ := enhanceInfo_ok_facts _ _ h1
          refine ⟨info, ?_, hic, hil, hit⟩
          rw [fr4 "info" (by decide), fr3 "info" (by decide), fr2 "info" (by decide)]
          exact hi
        · obtain ⟨comps, hcc, hck⟩ := addSecuritySchemes_ok_facts _ _ h2
          refine ⟨comps, ?_, hck⟩
          rw [fr4 "components" (by decide), fr3 "components" (by decide)]
          exact hcc
        · rw [fr4 "tags" (by decide)]
          exact addTags_ok_isSome _ _ h3

theorem enhance_of_enriched (t : JDict) (h : SpecEnriched t) :
    enhance_openapi_spec t = Except.ok t := by
  obtain ⟨hs, ⟨info, hi, hic, hil, hit⟩, ⟨comps, hcc, hck⟩, htag, hpaths⟩ := h
  have h1 : enhanceServers t = t := enhanceServers_stable t hs
  have h2 : enhanceInfo t = Except.ok t := enhanceInfo_stable t info hi hic hil hit
  have h3 : ensureComponents t = t :=
    ensureComponents_stable t (by simp [JDict.hasKey, hcc])
  have h4 : addSecuritySchemes t = Except.ok t :=
    addSecuritySchemes_stable t comps hcc hck
  have h5 : addTags t = Except.ok t := by
    apply addTags_stable
    simp [JDict.hasKey]
    exact htag
  have h6 : enhancePaths t = Except.ok t := enhancePaths_stable t hpaths
  simp [enhance_openapi_spec, h1, h2, h3, h4, h5, h6, Bind.bind, Except.bind]

/-! ### Order lemmas for `pySorted` and the tag set -/

theorem strLeAux_total : ∀ a b : List Char, strLeAux a b = true ∨ strLeAux b a = true := by
  intro a
  induction a with
  | nil => intro b; left; rfl
  | cons x xs ih =>
    intro b
    cases b with
    | nil => right; rfl
    | cons y ys =>
      rcases lt_trichotomy x y with hxy | hxy | hxy
      · left; simp [strLeAux, hxy]
      · subst hxy
        rcases ih ys with h | h
        · left; simp [strLeAux, h]
        · right; simp [strLeAux, h]
      · right; simp [strLeAux, hxy]

theorem strLeAux_trans : ∀ a b c : List Char,
    strLeAux a b = true → strLeAux b c = true → strLeAux a c = true := by
  intro a
  induction a with
  | nil => intro b c _ _; rfl
  | cons x xs ih =>
    intro b c h1 h2
    cases b with
    | nil => simp [strLeAux] at h1
    | cons y ys =>
      cases c with
      | nil => simp [strLeAux] at h2
      | cons z zs =>
        rcases lt_trichotomy x y with hxy | hxy | hxy
        · rcases lt_trichotomy y z with hyz | hyz | hyz
          · simp [strLeAux, lt_trans hxy hyz]
          · subst hyz; simp [strLeAux, hxy]
          · simp [strLeAux, asymm hyz, ne_of_gt hyz] at h2
        · subst hxy
          rcases lt_trichotomy x z with hyz | hyz | hyz
          · simp [strLeAux, hyz]
          · subst hyz
            simp [strLeAux] at h1 h2 ⊢
            exact ih ys zs h1 h2
          · simp [strLeAux, asymm hyz, ne_of_gt hyz] at h2
        · simp [strLeAux, asymm hxy, ne_of_gt hxy] at h1

theorem pyStrLe_total (a b : String) : pyStrLe a b = true ∨ pyStrLe b a = true :=
  strLeAux_total a.toList b.toList

theorem pyStrLe_trans (a b c : String) (h1 : pyStrLe a b = true)
    (h2 : pyStrLe b c = true) : pyStrLe a c = true :=
  strLeAux_trans a.toList b.toList c.toList h1 h2

theorem mem_insertSorted (x y : String) (l : List String) :
    y ∈ insertSorted x l ↔ y = x ∨ y ∈ l := by
  induction l with
  | nil => simp [insertSorted]
  | cons z zs ih =>
    by_cases h : pyStrLe x z
    · simp [insertSorted, h]
    · simp [insertSorted, h, ih]
      tauto

theorem nodup_insertSorted (x : String) (l : List String) (hx : x ∉ l)
    (h : l.Nodup) : (insertSorted x l).Nodup := by
  induction l with
  | nil => simp [insertSorted]
  | cons z zs ih =>
    rw [List.nodup_cons] at h
    by_cases hle : pyStrLe x z = true
    · simp only [insertSorted]
      rw [if_pos hle]
      exact List.nodup_cons.mpr ⟨hx, List.nodup_cons.mpr h⟩
    · simp only [insertSorted]
      rw [if_neg hle, List.nodup_cons]
      constructor
      · intro hz
        rcases (mem_insertSorted x z zs).mp hz with rfl | hz2
        · exact hx (List.mem_cons_self _ _)
        · exact h.1 hz2
      · exact ih (fun hh => hx (List.mem_cons_of_mem _ hh)) h.2

theorem pairwise_insertSorted (x : String) (l : List String)
    (h : l.Pairwise (fun a b => pyStrLe a b = true)) :
    (insertSorted x l).Pairwise (fun a b => pyStrLe a b = true) := by
  induction l with
  | nil => simp [insertSorted]
  | cons z zs ih =>
    rw [List.pairwise_cons] at h
    by_cases hle : pyStrLe x z = true
    · simp only [insertSorted]
      rw [if_pos hle, List.pairwise_cons]
      refine ⟨?_, List.pairwise_cons.mpr h⟩
      intro b hb
      rcases List.mem_cons.mp hb with rfl | hb2
      · exact hle
      · exact pyStrLe_trans x z b hle (h.1 b hb2)
    · simp only [insertSorted]
      rw [if_neg hle, List.pairwise_cons]
      constructor
      · intro b hb
        rcases (mem_insertSorted x b zs).mp hb with rfl | hb2
        · rcases pyStrLe_total b z with hh | hh
          · exact absurd hh hle
          · exact hh
        · exact h.1 b hb2
      · exact ih h.2

theorem mem_pySorted (x : String) (l : List String) :
    x ∈ pySorted l ↔ x ∈ l := by
  induction l with
  | nil => simp [pySorted]
  | cons y ys ih =>
    show x ∈ insertSorted y (pySorted ys) ↔ _
    rw [mem_insertSorted]
    simp [ih]

theorem nodup_pySorted (l : List String) (h : l.Nodup) : (pySorted l).Nodup := by
  induction l with
  | nil => simp [pySorted]
  | cons y ys ih =>
    rw [List.nodup_cons] at h
    exact nodup_insertSorted y (pySorted ys)
      (fun hh => h.1 ((mem_pySorted y ys).mp hh)) (ih h.2)

theorem pairwise_pySorted (l : List String) :
    (pySorted l).Pairwise (fun a b => pyStrLe a b = true) := by
  induction l with
  | nil => simp [pySorted]
  | cons y ys ih => exact pairwise_insertSorted y (pySorted ys) ih

theorem mem_tagSetInsert (x t : String) (l : List String) :
    x ∈ tagSetInsert l t ↔ x ∈ l ∨ x = t := by
  unfold tagSetInsert
  by_cases h : t ∈ l
  · rw [if_pos h]
    constructor
    · exact Or.inl
    · rintro (hx | rfl)
      · exact hx
      · exact h
  · rw [if_neg h]
    simp

theorem nodup_tagSetInsert (t : String) (l : List String) (h : l.Nodup) :
    (tagSetInsert l t).Nodup := by
  unfold tagSetInsert
  by_cases ht : t ∈ l
  · rw [if_pos ht]
    exact h
  · rw [if_neg ht, List.nodup_append]
    exact ⟨h, List.nodup_singleton t, by simp [ht]⟩

theorem collectTags_loop_mem (ps : List String) :
    ∀ (acc : List String) (x : String),
      (x ∈ ps.foldl (fun tags path =>
        match pathTag path with
        | some tag => tagSetInsert tags tag
        | none => tags) acc)
      ↔ x ∈ acc ∨ ∃ p ∈ ps, pathTag p = some x := by
  induction ps with
  | nil => intro acc x; simp
  | cons p rest ih =>
    intro acc x
    rw [List.foldl_cons]
    cases hp : pathTag p with
    | none =>
      simp only [hp]
      rw [ih]
      constructor
      · rintro (h | ⟨q, hq, hqt⟩)
        · exact Or.inl h
        · exact Or.inr ⟨q, by simp [hq], hqt⟩
      · rintro (h | ⟨q, hq, hqt⟩)
        · exact Or.inl h
        · rcases List.mem_cons.mp hq with rfl | hq2
          · rw [hp] at hqt; cases hqt
          · exact Or.inr ⟨q, hq2, hqt⟩
    | some t =>
      simp only [hp]
      rw [ih]
      rw [mem_tagSetInsert]
      constructor
      · rintro ((h | rfl) | ⟨q, hq, hqt⟩)
        · exact Or.inl h
        · exact Or.inr ⟨p, by simp, hp⟩
        · exact Or.inr ⟨q, by simp [hq], hqt⟩
      · rintro (h | ⟨q, hq, hqt⟩)
        · exact Or.inl (Or.inl h)
        · rcases List.mem_cons.mp hq with rfl | hq2
          · rw [hp] at hqt
            injection hqt with hqt
            exact Or.inl (Or.inr hqt.symm)
          · exact Or.inr ⟨q, hq2, hqt⟩

theorem collectTags_mem (ps : List String) (x : String) :
    x ∈ collectTags ps ↔ ∃ p ∈ ps, pathTag p = some x := by
  rw [collectTags, collectTags_loop_mem]
  simp

theorem collectTags_loop_nodup (ps : List String) :
    ∀ acc : List String, acc.Nodup →
      (ps.foldl (fun tags path =>
        match pathTag path with
        | some tag => tagSetInsert tags tag
        | none => tags) acc).Nodup := by
  induction ps with
  | nil => intro acc h; simpa
  | cons p rest ih =>
    intro acc h
    rw [List.foldl_cons]
    cases hp : pathTag p with
    | none => simpa only [hp] using ih acc h
    | some t => simpa only [hp] using ih _ (nodup_tagSetInsert t acc h)

theorem collectTags_nodup (ps : List String) : (collectTags ps).Nodup :=
  collectTags_loop_nodup ps [] (by simp)

/-! ### Claim theorems -/

/-- The enriched spec a successful enrichment returns (escape hatch for
stating closed corollaries about concrete inputs). -/
def enhResult (spec : JDict) : JDict :=
  match enhance_openapi_spec spec with
  | .ok t => t
  | .error _ => []

/-- Read `components.securitySchemes` out of an enrichment result. -/
def specSecuritySchemes (r : Except String JDict) : Option Json :=
  match r with
  | .ok spec =>
    match JDict.get spec "components" with
    | some (Json.obj comps) => JDict.get comps "securitySchemes"
    | _ => none
  | .error _ => none

/-- Read one key of `info` out of an enrichment result. -/
def specInfoKey (r : Except String JDict) (k : String) : Option Json :=
  match r with
  | .ok spec =>
    match JDict.get spec "info" with
    | some (Json.obj info) => JDict.get info k
    | _ => none
  | .error _ => none

/-- C1: the claim says a pattern-extracted route with docstring `None`
gets the synthesized summary `"{METHOD} {path}"` and is inserted under
the lowercase method key.  The code cannot do that: `_extract_flask_routes`
always stores the `'docstring'` key, so `route.get('docstring', f'{method}
{path}')` returns the stored `None` instead of the intended fallback and
`None.split('\n')` raises `AttributeError` (which `_analyze_flask_routes`
then swallows, dropping the route).  Evaluated at the failing input — the
route for a bare `/health` handler with no docstring. -/
theorem C1_none_docstring_route_raises :
    add_route_to_spec get_base_spec
      { path := "/health", methods := ["GET"], function := "health", docstring := none }
      = Except.error "AttributeError: NoneType object has no attribute split" := rfl

/-- C9: synthesizing an example for the object schema with string field
`email`, integer field `age` and boolean field `active` yields exactly
`{"email": "user@example.com", "age": 25, "active": true}`: the email and
age name heuristics fire (25 for age, not the generic 42), and booleans
are always true. -/
theorem C9_example_round_trip :
    create_example_from_schema
      [("type", Json.str "object"),
       ("properties", Json.obj
         [("email", Json.obj [("type", Json.str "string")]),
          ("age", Json.obj [("type", Json.str "integer")]),
          ("active", Json.obj [("type", Json.str "boolean")])])]
      = Except.ok (Json.obj
          [("email", Json.str "user@example.com"),
           ("age", Json.num 25),
           ("active", Json.bool true)]) := rfl

/-- C5: enrichment is idempotent — whenever `_enhance_openapi_spec`
succeeds on a specification, running it again on its output returns the
output unchanged: the servers list is overwritten with the same fixed
list, the default security schemes are not added a second time, tags are
not re-derived, and the examples added by the first run make every
`'examples' not in content` test of the second run fail. -/
theorem C5_enhance_idempotent (s t : JDict)
    (h : enhance_openapi_spec s = Except.ok t) :
    enhance_openapi_spec t = Except.ok t :=
  enhance_of_enriched t (enriched_of_ok s t h)

/-- Witness for C5 at the base specification. -/
theorem C5_enhance_idempotent_witness :
    enhance_openapi_spec get_base_spec = Except.ok (enhResult get_base_spec) ∧
    enhance_openapi_spec (enhResult get_base_spec)
      = Except.ok (enhResult get_base_spec) :=
  ⟨rfl, C5_enhance_idempotent get_base_spec (enhResult get_base_spec) rfl⟩

/-- C2 counterexample: `_get_base_spec` ships `components.securitySchemes`
as an empty dict, so the key is present and `_enhance_openapi_spec` does
not add the two defaults — after enrichment the base spec carries an
empty securitySchemes mapping with neither a bearer nor an api-key
entry, contradicting the claim that the builder-produced base spec has
both defaults after enrichment. -/
theorem C2_base_spec_counterexample :
    specSecuritySchemes (enhance_openapi_spec get_base_spec) = some (Json.obj []) ∧
    JDict.get ([] : JDict) "bearerAuth" = none ∧
    JDict.get ([] : JDict) "apiKey" = none :=
  ⟨rfl, rfl, rfl⟩

/-- C2 amended: after a successful enrichment, `components.securitySchemes`
equals the two fixed defaults when the key was entirely absent before
(`components` missing, or present without a `securitySchemes` key); when
the key was present — even bound to an empty mapping, as in the base
specification — its value is left untouched. -/
theorem C2_security_schemes_amended (s t : JDict)
    (h : enhance_openapi_spec s = Except.ok t) :
    (JDict.get s "components" = none →
      specSecuritySchemes (Except.ok t) = some defaultSecuritySchemes) ∧
    (∀ comps, JDict.get s "components" = some (Json.obj comps) →
      JDict.get comps "securitySchemes" = none →
      specSecuritySchemes (Except.ok t) = some defaultSecuritySchemes) ∧
    (∀ comps v, JDict.get s "components" = some (Json.obj comps) →
      JDict.get comps "securitySchemes" = some v →
      specSecuritySchemes (Except.ok t) = some v) := by
  unfold enhance_openapi_spec at h
  simp only [] at h
  cases h1 : enhanceInfo (enhanceServers s) with
  | error e => simp [h1, Bind.bind, Except.bind] at h
  | ok t1 =>
    rw [h1] at h
    simp only [Bind.bind, Except.bind] at h
    cases h2 : addSecuritySchemes (ensureComponents t1) with
    | error e => simp [h2, Bind.bind, Except.bind] at h
    | ok t2 =>
      rw [h2] at h
      simp only [Bind.bind, Except.bind] at h
      cases h3 : addTags t2 with
      | error e => simp [h3, Bind.bind, Except.bind] at h
      | ok t3 =>
        rw [h3] at h
        simp only [Bind.bind, Except.bind] at h
        have hct1 : JDict.get t1 "components" = JDict.get s "components" := by
          rw [enhanceInfo_frame _ _ h1 "components" (by decide),
            enhanceServers_frame s "components" (by decide)]
        have htrans : ∀ v, JDict.get t2 "components" = v → JDict.get t "components" = v := by
          intro v hv
          rw [enhancePaths_frame _ _ h "components" (by decide),
            addTags_frame _ _ h3 "components" (by decide)]
          exact hv
        refine ⟨?_, ?_, ?_⟩
        · intro habs
          have hkey : JDict.hasKey t1 "components" = false := by
            simp [JDict.hasKey, hct1, habs]
          have hu : ensureComponents t1 = JDict.set t1 "components" (Json.obj []) := by
            simp [ensureComponents, hkey]
          have hu2 : JDict.get (ensureComponents t1) "components" = some (Json.obj []) := by
            rw [hu]
            exact JDict.get_set_self _ _ _
          have := addSecuritySchemes_adds _ _ [] h2 hu2 rfl
          have ht := htrans _ this
          simp [specSecuritySchemes, ht, JDict.set, JDict.get]
        · intro comps hc habs
          have hkey : JDict.hasKey t1 "components" = true := by
            simp [JDict.hasKey, hct1, hc]
          have hu : ensureComponents t1 = t1 := ensureComponents_stable t1 hkey
          rw [hu] at h2
          have := addSecuritySchemes_adds _ _ comps h2 (by rw [hct1]; exact hc) habs
          have ht := htrans _ this
          simp [specSecuritySchemes, ht, JDict.get_set_self]
        · intro comps v hc hpres
          have hkey : JDict.hasKey t1 "components" = true := by
            simp [JDict.hasKey, hct1, hc]
          have hu : ensureComponents t1 = t1 := ensureComponents_stable t1 hkey
          rw [hu] at h2
          have heq : t2 = t1 :=
            addSecuritySchemes_keeps _ _ comps v h2 (by rw [hct1]; exact hc) hpres
          have ht := htrans (some (Json.obj comps)) (by rw [heq, hct1]; exact hc)
          simp [specSecuritySchemes, ht, hpres]

/-- Witness for C2 amended: a components mapping without the key gets the
defaults. -/
theorem C2_security_schemes_witness :
    specSecuritySchemes (Except.ok (enhResult [("components", Json.obj [("schemas", Json.obj [])])]))
      = some defaultSecuritySchemes :=
  (C2_security_schemes_amended [("components", Json.obj [("schemas", Json.obj [])])]
      (enhResult [("components", Json.obj [("schemas", Json.obj [])])]) rfl).2.1
    [("schemas", Json.obj [])] rfl rfl

/-- C3 counterexample: the dict splat `{**info, 'contact': ..}` puts the
three fixed keys after the spread, so a pre-existing `contact` value is
overwritten by the default contact block rather than preserved. -/
theorem C3_contact_overwritten_counterexample :
    specInfoKey (enhance_openapi_spec [("info", Json.obj [("contact", Json.str "me")])])
        "contact" = some defaultContact ∧
    defaultContact ≠ Json.str "me" :=
  ⟨rfl, by simp [defaultContact]⟩

/-- C3 amended: enrichment merges `info` for every key other than
`contact`, `license` and `termsOfService` (those existing values are
preserved); the three fixed keys are always set to the default contact,
license and terms-of-service values, overwriting any previous value. -/
theorem C3_info_merge_amended (s t : JDict)
    (h : enhance_openapi_spec s = Except.ok t)
    (k : String) (hk1 : k ≠ "contact") (hk2 : k ≠ "license")
    (hk3 : k ≠ "termsOfService") :
    (∀ info v, JDict.get s "info" = some (Json.obj info) →
      JDict.get info k = some v → specInfoKey (Except.ok t) k = some v) ∧
    specInfoKey (Except.ok t) "contact" = some defaultContact ∧
    specInfoKey (Except.ok t) "license" = some defaultLicense ∧
    specInfoKey (Except.ok t) "termsOfService" = some defaultTermsOfService := by
  unfold enhance_openapi_spec at h
  simp only [] at h
  cases h1 : enhanceInfo (enhanceServers s) with
  | error e => simp [h1, Bind.bind, Except.bind] at h
  | ok t1 =>
    rw [h1] at h
    simp only [Bind.bind, Except.bind] at h
    cases h2 : addSecuritySchemes (ensureComponents t1) with
    | error e => simp [h2, Bind.bind, Except.bind] at h
    | ok t2 =>
      rw [h2] at h
      simp only [Bind.bind, Except.bind] at h
      cases h3 : addTags t2 with
      | error e => simp [h3, Bind.bind, Except.bind] at h
      | ok t3 =>
        rw [h3] at h
        simp only [Bind.bind, Except.bind] at h
        have htr : JDict.get t "info" = JDict.get t1 "info" := by
          rw [enhancePaths_frame _ _ h "info" (by decide),
            addTags_frame _ _ h3 "info" (by decide),
            addSecuritySchemes_frame _ _ h2 "info" (by decide),
            ensureComponents_frame _ "info" (by decide)]
        refine ⟨?_, ?_, ?_, ?_⟩
        · intro info v hinfo hv
          obtain ⟨info', hi', hv'⟩ := enhanceInfo_preserves _ _ h1 k hk1 hk2 hk3 info v
            (by rw [enhanceServers_frame s "info" (by decide)]; exact hinfo) hv
          simp [specInfoKey, htr, hi', hv']
        · obtain ⟨info', hi', hc', _, _⟩ := enhanceInfo_ok_facts _ _ h1
          simp [specInfoKey, htr, hi', hc']
        · obtain ⟨info', hi', _, hl', _⟩ := enhanceInfo_ok_facts _ _ h1
          simp [specInfoKey, htr, hi', hl']
        · obtain ⟨info', hi', _, _, ht'⟩ := enhanceInfo_ok_facts _ _ h1
          simp [specInfoKey, htr, hi', ht']

/-- Witness for C3 amended: a title survives enrichment while contact is
set to the default. -/
theorem C3_info_merge_witness :
    specInfoKey (Except.ok (enhResult [("info", Json.obj [("title", Json.str "T")])]))
        "title" = some (Json.str "T") ∧
    specInfoKey (Except.ok (enhResult [("info", Json.obj [("title", Json.str "T")])]))
        "contact" = some defaultContact :=
  have hh := C3_info_merge_amended [("info", Json.obj [("title", Json.str "T")])]
    (enhResult [("info", Json.obj [("title", Json.str "T")])]) rfl
    "title" (by decide) (by decide) (by decide)
  ⟨hh.1 [("title", Json.str "T")] (Json.str "T") rfl rfl, hh.2.1⟩

/-! ### C4 support -/

theorem manifestMatch_vals (c fw : String) (h : manifestMatch c = some fw) :
    fw = "fastapi" ∨ fw = "flask-restx" ∨ fw = "django-drf" ∨ fw = "flask" := by
  unfold manifestMatch at h
  simp only [] at h
  split_ifs at h <;> simp_all

theorem pyFileMatch_vals (c fw : String) (h : pyFileMatch c = some fw) :
    fw = "fastapi" ∨ fw = "flask-restx" ∨ fw = "django-drf" ∨ fw = "flask" := by
  unfold pyFileMatch at h
  split_ifs at h <;> simp_all

theorem detectFromPyFiles_total (pyFiles : List FileRead) :
    detectFromPyFiles pyFiles ∈
      [Except.ok "fastapi", Except.ok "flask-restx", Except.ok "django-drf",
       Except.ok "flask", Except.ok "unknown"] := by
  induction pyFiles with
  | nil => simp [detectFromPyFiles]
  | cons f rest ih =>
    cases f with
    | error e => simpa [detectFromPyFiles] using ih
    | ok content =>
      cases hm : pyFileMatch content with
      | none => simpa [detectFromPyFiles, hm] using ih
      | some fw =>
        rcases pyFileMatch_vals content fw hm with rfl | rfl | rfl | rfl <;>
          simp [detectFromPyFiles, hm]

/-- C4 counterexample: a dependency manifest that exists but whose
`read_text` raises makes `detect_framework` propagate the exception — the
manifest loop, unlike the source-file loop, has no `try`/`except`. -/
theorem C4_manifest_read_error_propagates :
    detect_framework [some (Except.error ())] [] = Except.error () := rfl

/-- C4 amended: `detect_framework` returns one of the four framework
names or `"unknown"` and never raises, provided every existing manifest
file reads successfully; unreadable source files are skipped (only the
`rglob` loop is guarded by `try`/`except`). -/
theorem C4_detect_total_amended (manifests : List (Option FileRead))
    (pyFiles : List FileRead)
    (h : ∀ m ∈ manifests, m ≠ some (Except.error ())) :
    detect_framework manifests pyFiles ∈
      [Except.ok "fastapi", Except.ok "flask-restx", Except.ok "django-drf",
       Except.ok "flask", Except.ok "unknown"] := by
  induction manifests with
  | nil => exact detectFromPyFiles_total pyFiles
  | cons m rest ih =>
    cases m with
    | none =>
      simpa [detect_framework] using ih (fun x hx => h x (List.mem_cons_of_mem _ hx))
    | some fr =>
      cases fr with
      | error e =>
        cases e
        exact absurd rfl (h (some (Except.error ())) (List.mem_cons_self _ _))
      | ok content =>
        cases hm : manifestMatch content with
        | none =>
          simpa [detect_framework, hm] using
            ih (fun x hx => h x (List.mem_cons_of_mem _ hx))
        | some fw =>
          rcases manifestMatch_vals content fw hm with rfl | rfl | rfl | rfl <;>
            simp [detect_framework, hm]

/-- Witness for C4 amended: an absent manifest, a flask manifest and an
unreadable source file. -/
theorem C4_detect_total_witness :
    detect_framework [none, some (Except.ok "Flask==2.0")] [Except.error ()] ∈
      [Except.ok "fastapi", Except.ok "flask-restx", Except.ok "django-drf",
       Except.ok "flask", Except.ok "unknown"] :=
  C4_detect_total_amended [none, some (Except.ok "Flask==2.0")] [Except.error ()]
    (by
      intro m hm
      rcases List.mem_cons.mp hm with rfl | hm2
      · simp
      · rcases List.mem_cons.mp hm2 with rfl | hm3
        · simp
        · cases hm3)

/-! ### Support for C6, C7, C10: first-step unfoldings of `evFuel` -/

theorem evFuel_example (fuel : Nat) (name : String) (schema : JDict) (v : Json)
    (hv : JDict.get schema "example" = some v) :
    evFuel (fuel + 1) name schema = Except.ok v := by
  simp [evFuel, hv]

theorem evFuel_integer (fuel : Nat) (name : String) (schema : JDict)
    (hex : JDict.get schema "example" = none)
    (ht : JDict.get schema "type" = some (Json.str "integer")) :
    evFuel (fuel + 1) name schema = Except.ok (integerExample name) := by
  simp [evFuel, hex, ht]

/-- C6 counterexample: `_create_example_from_schema` on an object-typed
schema builds the example from `properties` and ignores a top-level
explicit `example` key, so the explicit example is not returned
verbatim. -/
theorem C6_object_example_ignored_counterexample :
    create_example_from_schema
      [("type", Json.str "object"), ("example", Json.str "WINNER"),
       ("properties", Json.obj [])]
      = Except.ok (Json.obj []) ∧
    Json.obj ([] : List (String × Json)) ≠ Json.str "WINNER" :=
  ⟨rfl, by simp⟩

/-- C6 amended: `_create_example_value` returns an explicit `example`
value verbatim for every field name and schema; `_create_example_from_schema`
does so only when the schema type is neither `'object'` nor `'array'`
(those branches synthesize from `properties` and `items` without
consulting the top-level `example`). -/
theorem C6_example_key_amended :
    (∀ (fieldName : String) (schema : JDict) (v : Json),
       JDict.get schema "example" = some v →
       create_example_value fieldName schema = Except.ok v) ∧
    (∀ (schema : JDict) (v : Json),
       JDict.get schema "example" = some v →
       (∀ t, JDict.get schema "type" = some t →
         t ≠ Json.str "object" ∧ t ≠ Json.str "array") →
       create_example_from_schema schema = Except.ok v) := by
  constructor
  · intro fieldName schema v hv
    unfold create_example_value
    rw [show 2 * jdictWeight schema + 4 = (2 * jdictWeight schema + 3) + 1 from rfl]
    exact evFuel_example _ _ _ _ hv
  · intro schema v hv htype
    unfold create_example_from_schema
    have hval : efsFuel (2 * jdictWeight schema + 4) schema
        = evFuel (2 * jdictWeight schema + 4) "value" schema := by
      unfold efsFuel
      cases ht : JDict.get schema "type" with
      | none => rfl
      | some tv =>
        cases tv with
        | str t =>
          obtain ⟨hno, hna⟩ := htype (Json.str t) ht
          have ht1 : t ≠ "object" := fun hh => hno (by rw [hh])
          have ht2 : t ≠ "array" := fun hh => hna (by rw [hh])
          simp [ht1, ht2]
        | null => rfl
        | bool b => rfl
        | num n => rfl
        | arr l => rfl
        | obj o => rfl
    rw [hval,
      show 2 * jdictWeight schema + 4 = (2 * jdictWeight schema + 3) + 1 from rfl]
    exact evFuel_example _ _ _ _ hv

/-- Witness for C6 amended. -/
theorem C6_example_key_witness :
    create_example_value "x" [("example", Json.num 7)] = Except.ok (Json.num 7) ∧
    create_example_from_schema [("type", Json.str "integer"), ("example", Json.num 8)]
      = Except.ok (Json.num 8) :=
  ⟨C6_example_key_amended.1 "x" [("example", Json.num 7)] (Json.num 7) rfl,
   C6_example_key_amended.2 [("type", Json.str "integer"), ("example", Json.num 8)]
     (Json.num 8) rfl
     (by
       intro t ht
       injection ht with ht
       subst ht
       exact ⟨by simp, by simp⟩)⟩

/-- C7 counterexample: the id placeholder rule of the integer branch is
`field_name.endswith('_id') or field_name == 'id'` on the raw name — it
is not case-insensitive.  An integer field named `"ID"` falls through to
the generic default 42 instead of the id placeholder 123 produced for
`"id"`. -/
theorem C7_uppercase_id_counterexample :
    create_example_value "ID" [("type", Json.str "integer")] = Except.ok (Json.num 42) ∧
    create_example_value "id" [("type", Json.str "integer")] = Except.ok (Json.num 123) ∧
    Json.num 42 ≠ Json.num 123 :=
  ⟨rfl, rfl, by simp⟩

/-- C7 amended: in the integer branch the age/count/port substring
heuristics are case-insensitive (they test `field_name.lower()`), so the
fired rule depends only on the lowercased name together with the raw-name
id test; but the id rule itself compares the raw field name, so `"ID"`
and names ending in `"_ID"` take the generic default 42 while `"id"` and
`"_id"`-suffixed names take 123. -/
theorem C7_integer_heuristics_amended :
    (∀ f1 f2 : String, pyLower f1 = pyLower f2 →
      (pyEndsWith f1 "_id" || f1 = "id") = (pyEndsWith f2 "_id" || f2 = "id") →
      integerExample f1 = integerExample f2) ∧
    (∀ (f : String) (schema : JDict),
      JDict.get schema "type" = some (Json.str "integer") →
      JDict.get schema "example" = none →
      create_example_value f schema = Except.ok (integerExample f)) ∧
    create_example_value "id" [("type", Json.str "integer")] = Except.ok (Json.num 123) ∧
    create_example_value "USER_ID" [("type", Json.str "integer")] = Except.ok (Json.num 42) := by
  refine ⟨?_, ?_, rfl, rfl⟩
  · intro f1 f2 hlow hid
    unfold integerExample
    rw [hlow, hid]
  · intro f schema ht hex
    unfold create_example_value
    rw [show 2 * jdictWeight schema + 4 = (2 * jdictWeight schema + 3) + 1 from rfl]
    exact evFuel_integer _ _ _ hex ht

/-- Witness for C7 amended. -/
theorem C7_integer_heuristics_witness :
    integerExample "AGE" = integerExample "age" ∧
    create_example_value "AGE" [("type", Json.str "integer")]
      = Except.ok (integerExample "AGE") :=
  ⟨C7_integer_heuristics_amended.1 "AGE" "age" rfl rfl,
   C7_integer_heuristics_amended.2.1 "AGE" [("type", Json.str "integer")] rfl rfl⟩

/-- C10: a schema with no explicit example whose `type` value is none of
the six recognized type names — including any non-string `type` value —
falls through every branch of `_create_example_value` and yields `None`
(a JSON null example) without raising. -/
theorem C10_unknown_type_yields_null (fieldName : String) (schema : JDict)
    (hex : JDict.get schema "example" = none) (v : Json)
    (ht : JDict.get schema "type" = some v)
    (hv : ∀ s, v = Json.str s →
      s ≠ "string" ∧ s ≠ "integer" ∧ s ≠ "number" ∧ s ≠ "boolean" ∧
      s ≠ "array" ∧ s ≠ "object") :
    create_example_value fieldName schema = Except.ok Json.null := by
  unfold create_example_value
  rw [show 2 * jdictWeight schema + 4 = (2 * jdictWeight schema + 3) + 1 from rfl]
  cases v with
  | str s =>
    obtain ⟨h1, h2, h3, h4, h5, h6⟩ := hv s rfl
    simp [evFuel, hex, ht, h1, h2, h3, h4, h5, h6]
  | null => simp [evFuel, hex, ht]
  | bool b => simp [evFuel, hex, ht]
  | num n => simp [evFuel, hex, ht]
  | arr l => simp [evFuel, hex, ht]
  | obj o => simp [evFuel, hex, ht]

/-- Witness for C10. -/
theorem C10_unknown_type_witness :
    create_example_value "x" [("type", Json.str "banana")] = Except.ok Json.null :=
  C10_unknown_type_yields_null "x" [("type", Json.str "banana")] rfl
    (Json.str "banana") rfl
    (by
      intro s hs
      injection hs with hs
      subst hs
      refine ⟨by simp, by simp, by simp, by simp, by simp, by simp⟩)

/-- C8: `_generate_tags_from_paths` maps the example paths `/users`,
`/api/orders`, `/api`, `/health` to exactly the alphabetically sorted
tags api, health, orders, users (a lone `/api` yields `api`, while
`/api/orders` yields `orders`), each rendered as `{name, description:
"{Name.title()} operations"}`; and in general the output is the
duplicate-free sorted list of per-path tags (first segment after
stripping slashes, second segment when the first is exactly `api` and a
second exists), rendered by that same formula. -/
theorem C8_tag_derivation :
    (generate_tags_from_paths
        [("/users", Json.obj []), ("/api/orders", Json.obj []),
         ("/api", Json.obj []), ("/health", Json.obj [])]
      = [Json.obj [("name", Json.str "api"), ("description", Json.str "Api operations")],
         Json.obj [("name", Json.str "health"), ("description", Json.str "Health operations")],
         Json.obj [("name", Json.str "orders"), ("description", Json.str "Orders operations")],
         Json.obj [("name", Json.str "users"), ("description", Json.str "Users operations")]])
    ∧ ∀ paths : JDict,
        (∀ x, x ∈ pySorted (collectTags (paths.map Prod.fst)) ↔
           ∃ p ∈ paths.map Prod.fst, pathTag p = some x) ∧
        (pySorted (collectTags (paths.map Prod.fst))).Nodup ∧
        (pySorted (collectTags (paths.map Prod.fst))).Pairwise
          (fun a b => pyStrLe a b = true) ∧
        generate_tags_from_paths paths
          = (pySorted (collectTags (paths.map Prod.fst))).map
              (fun tag => Json.obj
                [("name", Json.str tag),
                 ("description", Json.str (pyTitle tag ++ " operations"))]) := by
  refine ⟨rfl, ?_⟩
  intro paths
  refine ⟨?_, nodup_pySorted _ (collectTags_nodup _), pairwise_pySorted _, rfl⟩
  intro x
  rw [mem_pySorted, collectTags_mem]

/-- Witness for C8 at a one-path mapping. -/
theorem C8_tag_derivation_witness :
    ("users" ∈ pySorted (collectTags (([("/users", Json.obj [])] : JDict).map Prod.fst)) ↔
      ∃ p ∈ (([("/users", Json.obj [])] : JDict).map Prod.fst), pathTag p = some "users") ∧
    generate_tags_from_paths [("/users", Json.obj [])]
      = [Json.obj [("name", Json.str "users"),
           ("description", Json.str "Users operations")]] :=
  ⟨(C8_tag_derivation.2 [("/users", Json.obj [])]).1 "users", rfl⟩
